import Mathlib

/-!
# Wellspring: a shallow embedding of the core, with proofs about its spec

This file embeds, in Lean 4, the parts of the Wellspring repository that the
specification's checkable claims are about:

* the canonical JSON encoder used for CIDs and signing
  (Python's json.dumps with sort_keys=True, separators=(',',':'),
  default ensure_ascii), and the SHA-256 / BLAKE3 digests behind compute_cid;
* the thought constructors and signature protocol of
  files/wellspring_node.py (SignedThought.sign) and
  files/thread-3/core.py (create_thought / sign_content / verify_signature);
* the bloom filter, store, visibility filter and sync selection of
  files/wellspring_node.py (V1) and files/wellspring_node_v2.py (V2);
* the thread-3 store (SQLite table + JSONL append log) of
  files/thread-3/core.py (store_thought);
* the trust graphs of files/wellspring_trust_network.py (TrustGraph, BFS)
  and files/wellspring_repeaters.py (TrustGraphWithRepeaters, DFS with
  memo cache and repeater shortcuts);
* the trust-weighted scoring of
  files/thread-2/wellspring_embeddings.py (EmbeddingPipeline.query).

External cryptographic primitives (Ed25519 via pynacl / the cryptography
package, MurmurHash3 via mmh3) are not code of this repository; Ed25519 is
modelled as an explicit signature-scheme parameter (sign/verify functions
together with the correctness properties a theorem needs), while MurmurHash3
(x86, 32-bit) is implemented bit-faithfully since the bloom filter's behaviour
depends only on it being a function.

Python dict iteration order is insertion order (Python >= 3.7) and is
modelled by association lists.  Python set iteration order is unspecified
(string hashing is randomized per process); sets are modelled as
insertion-ordered deduplicated lists, which realizes one admissible
iteration order.
-/

namespace Wellspring

/-! ## Canonical JSON (json.dumps with sort_keys=True, separators=(',',':')) -/

mutual

/-- JSON values as produced/consumed by the Python sources.  Numbers are
restricted to integers: every value that reaches the canonical encoder in the
claims under study is built from strings, integers, booleans, nulls, arrays
and objects.  Arrays and objects carry their own list types so that the
serializers below are structurally recursive (and hence kernel-reducible). -/
inductive Json where
  | null : Json
  | bool (b : Bool) : Json
  | num (n : Int) : Json
  | str (s : String) : Json
  | arr (xs : JsonList) : Json
  | obj (fields : JsonFields) : Json

/-- A list of JSON values (array elements). -/
inductive JsonList where
  | nil : JsonList
  | cons (hd : Json) (tl : JsonList) : JsonList

/-- A list of key/value fields of a JSON object, in insertion order. -/
inductive JsonFields where
  | nil : JsonFields
  | cons (key : String) (val : Json) (tl : JsonFields) : JsonFields

end

/-- Build a JsonList from a Lean list. -/
def JsonList.ofList : List Json → JsonList
  | [] => .nil
  | x :: xs => .cons x (JsonList.ofList xs)

/-- Build JsonFields from a Lean association list (insertion order kept). -/
def JsonFields.ofList : List (String × Json) → JsonFields
  | [] => .nil
  | (k, v) :: kvs => .cons k v (JsonFields.ofList kvs)

/-- Array literal helper. -/
def Json.mkArr (xs : List Json) : Json := .arr (JsonList.ofList xs)

/-- Object literal helper (fields in Python-dict insertion order). -/
def Json.mkObj (kvs : List (String × Json)) : Json := .obj (JsonFields.ofList kvs)

/-- Append of field lists. -/
def JsonFields.append : JsonFields → JsonFields → JsonFields
  | .nil, r => r
  | .cons k v tl, r => .cons k v (JsonFields.append tl r)

/-- Lower-case hex digit. -/
def hexChar (n : Nat) : Char :=
  if n < 10 then Char.ofNat (48 + n) else Char.ofNat (87 + n)

/-- Four lower-case hex digits, as in Python's "\\u%04x". -/
def hex4 (n : Nat) : String :=
  String.mk [hexChar (n / 4096 % 16), hexChar (n / 256 % 16),
             hexChar (n / 16 % 16), hexChar (n % 16)]

/-- Escape one character the way Python's json.dumps (default ensure_ascii)
does: the two-character escapes for quote, backslash and the common control
characters, \\uXXXX for other controls and for every non-ASCII character
(surrogate pairs above U+FFFF), and the character itself for printable
ASCII. -/
def jsonEscChar (c : Char) : String :=
  if c = '"' then "\\\""
  else if c = '\\' then "\\\\"
  else if c = '\n' then "\\n"
  else if c = '\t' then "\\t"
  else if c = '\r' then "\\r"
  else if c = '\x08' then "\\b"
  else if c = '\x0c' then "\\f"
  else if c.toNat < 0x20 then "\\u" ++ hex4 c.toNat
  else if c.toNat < 0x7f then String.mk [c]
  else if c.toNat < 0x10000 then "\\u" ++ hex4 c.toNat
  else
    "\\u" ++ hex4 (0xd800 + (c.toNat - 0x10000) / 0x400) ++
    "\\u" ++ hex4 (0xdc00 + (c.toNat - 0x10000) % 0x400)

/-- A JSON string literal: quotes around the escaped characters. -/
def jsonQuote (s : String) : String :=
  "\"" ++ String.join (s.data.map jsonEscChar) ++ "\""

/-- Code-point lexicographic comparison of character lists: Python's string
comparison. -/
def charListLt : List Char → List Char → Bool
  | [], [] => false
  | [], _ :: _ => true
  | _ :: _, [] => false
  | c1 :: r1, c2 :: r2 =>
    if c1.toNat < c2.toNat then true
    else if c2.toNat < c1.toNat then false
    else charListLt r1 r2

/-- Python's s1 < s2 on strings. -/
def strLt (a b : String) : Bool := charListLt a.data b.data

/-- Python sorts dict keys with the plain string comparison (code-point
lexicographic); keys of the dicts we canonicalize are distinct, so stability
is irrelevant. -/
def insertField (k : String) (v : Json) : JsonFields → JsonFields
  | .nil => .cons k v .nil
  | .cons k2 v2 tl => if strLt k k2 then .cons k v (.cons k2 v2 tl)
                      else .cons k2 v2 (insertField k v tl)

/-- Insertion sort of object fields by key (sort_keys=True). -/
def sortFieldsByKey : JsonFields → JsonFields
  | .nil => .nil
  | .cons k v tl => insertField k v (sortFieldsByKey tl)

mutual

/-- Recursively sort every object's fields by key (the effect of
sort_keys=True at every nesting level). -/
def Json.sortKeys : Json → Json
  | .null => .null
  | .bool b => .bool b
  | .num n => .num n
  | .str s => .str s
  | .arr xs => .arr (JsonList.sortKeys xs)
  | .obj kvs => .obj (sortFieldsByKey (JsonFields.sortKeys kvs))
  termination_by structural j => j

/-- Pointwise Json.sortKeys over an array. -/
def JsonList.sortKeys : JsonList → JsonList
  | .nil => .nil
  | .cons x xs => .cons (Json.sortKeys x) (JsonList.sortKeys xs)
  termination_by structural l => l

/-- Pointwise Json.sortKeys over object values. -/
def JsonFields.sortKeys : JsonFields → JsonFields
  | .nil => .nil
  | .cons k v kvs => .cons k (Json.sortKeys v) (JsonFields.sortKeys kvs)
  termination_by structural l => l

end

mutual

/-- Serialization with separators (',', ':'), fields in the given order. -/
def Json.dumpsRaw : Json → String
  | .null => "null"
  | .bool true => "true"
  | .bool false => "false"
  | .num n => toString n
  | .str s => jsonQuote s
  | .arr xs => "[" ++ JsonList.dumpsRaw xs ++ "]"
  | .obj kvs => "\x7b" ++ JsonFields.dumpsRaw kvs ++ "\x7d"
  termination_by structural j => j

/-- Array elements joined by ','. -/
def JsonList.dumpsRaw : JsonList → String
  | .nil => ""
  | .cons x .nil => Json.dumpsRaw x
  | .cons x (.cons y ys) => Json.dumpsRaw x ++ "," ++ JsonList.dumpsRaw (.cons y ys)
  termination_by structural l => l

/-- Object fields joined by ',', each as key:value. -/
def JsonFields.dumpsRaw : JsonFields → String
  | .nil => ""
  | .cons k v .nil => jsonQuote k ++ ":" ++ Json.dumpsRaw v
  | .cons k v (.cons k2 v2 tl) =>
    jsonQuote k ++ ":" ++ Json.dumpsRaw v ++ "," ++ JsonFields.dumpsRaw (.cons k2 v2 tl)
  termination_by structural l => l

end

/-- json.dumps(obj, sort_keys=True, separators=(',', ':')) on the Json model. -/
def Json.dumps (j : Json) : String := Json.dumpsRaw (Json.sortKeys j)

/-! ## UTF-8 and hex -/

/-- UTF-8 encoding of one character, as a list of byte values. -/
def utf8Char (c : Char) : List Nat :=
  let n := c.toNat
  if n < 0x80 then [n]
  else if n < 0x800 then [0xc0 + n / 64, 0x80 + n % 64]
  else if n < 0x10000 then [0xe0 + n / 4096, 0x80 + n / 64 % 64, 0x80 + n % 64]
  else [0xf0 + n / 262144, 0x80 + n / 4096 % 64, 0x80 + n / 64 % 64, 0x80 + n % 64]

/-- UTF-8 bytes of a string (Python's str.encode()). -/
def strBytes (s : String) : List Nat :=
  s.data.foldr (fun c acc => utf8Char c ++ acc) []

/-- Two lower-case hex digits of a byte (bytes.hex()). -/
def hexByte (b : Nat) : List Char :=
  [hexChar (b / 16 % 16), hexChar (b % 16)]

/-- Lower-case hex string of a byte list (bytes.hex() / hexdigest()). -/
def bytesToHex (bs : List Nat) : String :=
  String.mk (bs.foldr (fun b acc => hexByte b ++ acc) [])

/-! ## SHA-256 (hashlib.sha256), on byte lists, words as Nat mod 2^32 -/

/-- Truncate to 32 bits. -/
def r32 (n : Nat) : Nat := n % 4294967296

/-- Rotate a 32-bit word right by k (0 < k < 32). -/
def rotr32 (n k : Nat) : Nat := (n >>> k) ||| r32 (n <<< (32 - k))

/-- SHA-256 round constants. -/
def shaK : List Nat :=
  [1116352408, 1899447441, 3049323471, 3921009573, 961987163, 1508970993,
   2453635748, 2870763221, 3624381080, 310598401, 607225278, 1426881987,
   1925078388, 2162078206, 2614888103, 3248222580, 3835390401, 4022224774,
   264347078, 604807628, 770255983, 1249150122, 1555081692, 1996064986,
   2554220882, 2821834349, 2952996808, 3210313671, 3336571891, 3584528711,
   113926993, 338241895, 666307205, 773529912, 1294757372, 1396182291,
   1695183700, 1986661051, 2177026350, 2456956037, 2730485921, 2820302411,
   3259730800, 3345764771, 3516065817, 3600352804, 4094571909, 275423344,
   430227734, 506948616, 659060556, 883997877, 958139571, 1322822218,
   1537002063, 1747873779, 1955562222, 2024104815, 2227730452, 2361852424,
   2428436474, 2756734187, 3204031479, 3329325298]

/-- SHA-256 initial hash values. -/
def shaH0 : List Nat :=
  [0x6a09e667, 0xbb67ae85, 0x3c6ef372, 0xa54ff53a,
   0x510e527f, 0x9b05688c, 0x1f83d9ab, 0x5be0cd19]

/-- Merkle-Damgard padding: 0x80, zeros, 64-bit big-endian bit length. -/
def shaPad (msg : List Nat) : List Nat :=
  let L := msg.length
  let zeros := (64 + 55 - L % 64) % 64
  let bits := 8 * L
  msg ++ [0x80] ++ List.replicate zeros 0 ++
    [bits / 72057594037927936 % 256, bits / 281474976710656 % 256,
     bits / 1099511627776 % 256, bits / 4294967296 % 256,
     bits / 16777216 % 256, bits / 65536 % 256, bits / 256 % 256, bits % 256]

/-- Big-endian 32-bit words from bytes. -/
def beWords : List Nat → List Nat
  | a :: b :: c :: d :: rest => (a * 16777216 + b * 65536 + c * 256 + d) :: beWords rest
  | _ => []

/-- Structural worker for chunksOf: walk the list, counting down k inside the
current chunk (accumulated reversed). -/
def chunksOfGo (n : Nat) : List α → List α → Nat → List (List α)
  | [], acc, _ => if acc.isEmpty then [] else [acc.reverse]
  | x :: xs, acc, k =>
    if k ≤ 1 then (x :: acc).reverse :: chunksOfGo n xs [] n
    else chunksOfGo n xs (x :: acc) (k - 1)

/-- Split a list into chunks of n. -/
def chunksOf (n : Nat) (l : List α) : List (List α) := chunksOfGo n l [] n

/-- Extend a 16-word block to the 64-word message schedule. -/
def shaSchedule : Nat → List Nat → List Nat
  | 0, acc => acc
  | n + 1, acc =>
    let L := acc.length
    let w15 := acc.getD (L - 15) 0
    let w2 := acc.getD (L - 2) 0
    let s0 := (rotr32 w15 7) ^^^ (rotr32 w15 18) ^^^ (w15 >>> 3)
    let s1 := (rotr32 w2 17) ^^^ (rotr32 w2 19) ^^^ (w2 >>> 10)
    shaSchedule n (acc ++ [r32 (acc.getD (L - 16) 0 + s0 + acc.getD (L - 7) 0 + s1)])

/-- One SHA-256 compression round. -/
def shaRound (st : Nat × Nat × Nat × Nat × Nat × Nat × Nat × Nat) (kw : Nat × Nat) :
    Nat × Nat × Nat × Nat × Nat × Nat × Nat × Nat :=
  let (a, b, c, d, e, f, g, h) := st
  let (k, w) := kw
  let S1 := (rotr32 e 6) ^^^ (rotr32 e 11) ^^^ (rotr32 e 25)
  let ch := (e &&& f) ^^^ ((4294967295 - e) &&& g)
  let t1 := r32 (h + S1 + ch + k + w)
  let S0 := (rotr32 a 2) ^^^ (rotr32 a 13) ^^^ (rotr32 a 22)
  let mj := (a &&& b) ^^^ (a &&& c) ^^^ (b &&& c)
  let t2 := r32 (S0 + mj)
  (r32 (t1 + t2), a, b, c, r32 (d + t1), e, f, g)

/-- Compress one 16-word block into the running hash. -/
def shaCompress (hs : List Nat) (block : List Nat) : List Nat :=
  let ws := shaSchedule 48 block
  let g := fun i => hs.getD i 0
  let init := (g 0, g 1, g 2, g 3, g 4, g 5, g 6, g 7)
  let (a, b, c, d, e, f, gg, h) := (shaK.zip ws).foldl shaRound init
  [r32 (g 0 + a), r32 (g 1 + b), r32 (g 2 + c), r32 (g 3 + d),
   r32 (g 4 + e), r32 (g 5 + f), r32 (g 6 + gg), r32 (g 7 + h)]

/-- SHA-256 digest (32 bytes) of a byte list. -/
def sha256 (msg : List Nat) : List Nat :=
  let hs := (chunksOf 16 (beWords (shaPad msg))).foldl shaCompress shaH0
  hs.foldr (fun w acc =>
    [w / 16777216 % 256, w / 65536 % 256, w / 256 % 256, w % 256] ++ acc) []

/-- hashlib.sha256(s.encode()).hexdigest() on the model. -/
def sha256Hex (s : String) : String := bytesToHex (sha256 (strBytes s))

/-- Sanity: the standard SHA-256 test vector for the empty message. -/
theorem sha256Hex_empty :
    sha256Hex "" = "e3b0c44298fc1c149afbf4c8996fb92427ae41e4649b934ca495991b7852b855" := by
  decide

/-- Sanity: the two-block SHA-256 test vector. -/
theorem sha256Hex_twoblock :
    sha256Hex "abcdbcdecdefdefgefghfghighijhijkijkljklmklmnlmnomnopnopq" =
      "248d6a61d20638b8e5c026930c3e6039a33ce45964ff2167f6ecedd419db06c1" := by
  decide

/-- Sanity: the canonical encoder sorts keys and uses tight separators. -/
theorem dumps_sorts_keys :
    Json.dumps (Json.mkObj [("b", Json.mkArr [.num 1, .null]), ("a", .str "x")]) =
      "\x7b\"a\":\"x\",\"b\":[1,null]\x7d" := by
  decide

/-! ## BLAKE3 (the blake3 package used by thread-3/core.py)

Model of the BLAKE3-256 digest for messages of at most 1024 bytes (one
chunk), which covers every canonical encoding the thread-3 claims exercise;
for longer inputs this model keeps chaining blocks inside a single chunk
instead of building the BLAKE3 chunk tree.  No claim in this development
depends on a specific BLAKE3 digest value; the function exists so that
thread-3's compute_cid is a concrete executable function of the canonical
bytes that does not read any other data. -/

/-- Rotate a 32-bit word left by k (0 < k < 32); used by MurmurHash3 below. -/
def rotl32 (n k : Nat) : Nat := r32 (n <<< k) ||| (n >>> (32 - k))

/-- The BLAKE3 message permutation. -/
def b3perm : List Nat := [2, 6, 3, 10, 7, 0, 4, 13, 1, 11, 12, 5, 9, 14, 15, 8]

/-- Permute the sixteen message words. -/
def b3permute (m : List Nat) : List Nat := b3perm.map (fun i => m.getD i 0)

/-- The BLAKE3 quarter-round on state positions a b c d with message words
mx my. -/
def b3g (st : List Nat) (a b c d mx my : Nat) : List Nat :=
  let va0 := st.getD a 0
  let vb0 := st.getD b 0
  let vc0 := st.getD c 0
  let vd0 := st.getD d 0
  let va1 := r32 (va0 + vb0 + mx)
  let vd1 := rotr32 (vd0 ^^^ va1) 16
  let vc1 := r32 (vc0 + vd1)
  let vb1 := rotr32 (vb0 ^^^ vc1) 12
  let va2 := r32 (va1 + vb1 + my)
  let vd2 := rotr32 (vd1 ^^^ va2) 8
  let vc2 := r32 (vc1 + vd2)
  let vb2 := rotr32 (vb1 ^^^ vc2) 7
  (((st.set a va2).set b vb2).set c vc2).set d vd2

/-- One BLAKE3 round: four column steps then four diagonal steps. -/
def b3round (st m : List Nat) : List Nat :=
  let g := fun i => m.getD i 0
  let s1 := b3g st 0 4 8 12 (g 0) (g 1)
  let s2 := b3g s1 1 5 9 13 (g 2) (g 3)
  let s3 := b3g s2 2 6 10 14 (g 4) (g 5)
  let s4 := b3g s3 3 7 11 15 (g 6) (g 7)
  let s5 := b3g s4 0 5 10 15 (g 8) (g 9)
  let s6 := b3g s5 1 6 11 12 (g 10) (g 11)
  let s7 := b3g s6 2 7 8 13 (g 12) (g 13)
  b3g s7 3 4 9 14 (g 14) (g 15)

/-- Seven rounds with the message permuted between rounds. -/
def b3rounds : Nat → List Nat → List Nat → List Nat
  | 0, st, _ => st
  | n + 1, st, m => b3rounds n (b3round st m) (b3permute m)

/-- The BLAKE3 compression function; returns the sixteen output words. -/
def b3compress (h m : List Nat) (counter blockLen flags : Nat) : List Nat :=
  let hw := fun i => h.getD i 0
  let iv := fun i => shaH0.getD i 0
  let v0 := [hw 0, hw 1, hw 2, hw 3, hw 4, hw 5, hw 6, hw 7,
             iv 0, iv 1, iv 2, iv 3,
             counter % 4294967296, counter / 4294967296 % 4294967296,
             blockLen, flags]
  let v := b3rounds 7 v0 m
  let vw := fun i => v.getD i 0
  [vw 0 ^^^ vw 8, vw 1 ^^^ vw 9, vw 2 ^^^ vw 10, vw 3 ^^^ vw 11,
   vw 4 ^^^ vw 12, vw 5 ^^^ vw 13, vw 6 ^^^ vw 14, vw 7 ^^^ vw 15,
   vw 8 ^^^ hw 0, vw 9 ^^^ hw 1, vw 10 ^^^ hw 2, vw 11 ^^^ hw 3,
   vw 12 ^^^ hw 4, vw 13 ^^^ hw 5, vw 14 ^^^ hw 6, vw 15 ^^^ hw 7]

/-- Little-endian 32-bit words from bytes. -/
def leWords : List Nat → List Nat
  | a :: b :: c :: d :: rest => (a + b * 256 + c * 65536 + d * 16777216) :: leWords rest
  | _ => []

/-- Pad a block to 64 bytes with zeros and take its sixteen words. -/
def b3blockWords (b : List Nat) : List Nat :=
  leWords (b ++ List.replicate (64 - b.length) 0)

/-- Walk the blocks of the (single) chunk; CHUNK_START = 1 on the first
block, CHUNK_END = 2 and ROOT = 8 on the last, chunk counter 0. -/
def b3go (h : List Nat) (first : Bool) : List (List Nat) → List Nat
  | [] => h
  | [b] =>
    (b3compress h (b3blockWords b) 0 b.length ((if first then 1 else 0) + 2 + 8)).take 8
  | b :: b2 :: rest =>
    b3go ((b3compress h (b3blockWords b) 0 64 (if first then 1 else 0)).take 8)
      false (b2 :: rest)

/-- BLAKE3-256 digest (32 bytes, little-endian output words). -/
def blake3 (msg : List Nat) : List Nat :=
  let blocks := if msg.isEmpty then [[]] else chunksOf 64 msg
  let out := b3go shaH0 true blocks
  out.foldr (fun w acc =>
    [w % 256, w / 256 % 256, w / 65536 % 256, w / 16777216 % 256] ++ acc) []

/-- blake3.blake3(s.encode()).hexdigest() on the model. -/
def blake3Hex (s : String) : String := bytesToHex (blake3 (strBytes s))

/-! ## MurmurHash3 x86 32-bit (the mmh3 package used by the bloom filter) -/

/-- Mix one 32-bit block into the murmur hash state. -/
def mmh3Block (h k : Nat) : Nat :=
  let k1 := r32 (k * 0xcc9e2d51)
  let k2 := rotl32 k1 15
  let k3 := r32 (k2 * 0x1b873593)
  let h1 := h ^^^ k3
  let h2 := rotl32 h1 13
  r32 (h2 * 5 + 0xe6546b64)

/-- Body: consume whole 4-byte little-endian blocks, then the tail. -/
def mmh3Body (h : Nat) : List Nat → Nat
  | a :: b :: c :: d :: rest =>
    mmh3Body (mmh3Block h (a + b * 256 + c * 65536 + d * 16777216)) rest
  | tail =>
    let k := match tail with
      | [a] => a
      | [a, b] => a + b * 256
      | [a, b, c] => a + b * 256 + c * 65536
      | _ => 0
    if tail.isEmpty then h
    else
      let k1 := r32 (k * 0xcc9e2d51)
      let k2 := rotl32 k1 15
      let k3 := r32 (k2 * 0x1b873593)
      h ^^^ k3

/-- Final avalanche. -/
def mmh3Fmix (h : Nat) : Nat :=
  let h1 := h ^^^ (h >>> 16)
  let h2 := r32 (h1 * 0x85ebca6b)
  let h3 := h2 ^^^ (h2 >>> 13)
  let h4 := r32 (h3 * 0xc2b2ae35)
  h4 ^^^ (h4 >>> 16)

/-- MurmurHash3 x86 32-bit of a byte list with the given seed (unsigned). -/
def murmur3 (bs : List Nat) (seed : Nat) : Nat :=
  mmh3Fmix (mmh3Body (r32 seed) bs ^^^ r32 bs.length)

/-- mmh3.hash(item, seed): the signed 32-bit value Python returns. -/
def mmh3Signed (item : String) (seed : Nat) : Int :=
  let h := murmur3 (strBytes item) seed
  if h < 2147483648 then (h : Int) else (h : Int) - 4294967296

/-- Sanity: the well-known murmur3_32 test value for "hello" with seed 0. -/
theorem murmur3_hello : mmh3Signed "hello" 0 = 613153351 := by decide

/-! ## Json dictionary access and equality (Python semantics) -/

mutual

/-- Python == on JSON values. -/
def Json.beq : Json → Json → Bool
  | .null, .null => true
  | .bool a, .bool b => a == b
  | .num a, .num b => a == b
  | .str a, .str b => a == b
  | .arr a, .arr b => JsonList.beq a b
  | .obj a, .obj b => JsonFields.beq a b
  | _, _ => false
  termination_by structural j => j

/-- Pointwise equality of arrays. -/
def JsonList.beq : JsonList → JsonList → Bool
  | .nil, .nil => true
  | .cons a as, .cons b bs => Json.beq a b && JsonList.beq as bs
  | _, _ => false
  termination_by structural l => l

/-- Pointwise equality of field lists (order-sensitive, as the model never
compares dicts whose key order differs). -/
def JsonFields.beq : JsonFields → JsonFields → Bool
  | .nil, .nil => true
  | .cons k v tl, .cons k2 v2 tl2 => k == k2 && Json.beq v v2 && JsonFields.beq tl tl2
  | _, _ => false
  termination_by structural l => l

end

/-- First field with the given key (dict keys are unique). -/
def JsonFields.lookup : JsonFields → String → Option Json
  | .nil, _ => none
  | .cons k v tl, key => if k == key then some v else JsonFields.lookup tl key

/-- Python d.get(key): none when the value is not a dict or lacks the key. -/
def Json.get (j : Json) (key : String) : Option Json :=
  match j with
  | .obj fs => fs.lookup key
  | _ => none

/-- Python (x in xs) for a JSON array and element. -/
def JsonList.holds : JsonList → Json → Bool
  | .nil, _ => false
  | .cons y ys, x => Json.beq x y || JsonList.holds ys x

/-- Assoc-list lookup (Python dict access, insertion-ordered model). -/
def lookupAssoc [BEq κ] : List (κ × α) → κ → Option α
  | [], _ => none
  | (k, v) :: tl, key => if k == key then some v else lookupAssoc tl key

/-- Python (key in dict). -/
def dictContains [BEq κ] (l : List (κ × α)) (k : κ) : Bool :=
  l.any (fun p => p.1 == k)

/-- Python dict[key] = value: replace in place, else append. -/
def dictInsert [BEq κ] (l : List (κ × α)) (k : κ) (v : α) : List (κ × α) :=
  if dictContains l k then l.map (fun p => if p.1 == k then (k, v) else p)
  else l ++ [(k, v)]

/-- Python set.add on an insertion-ordered deduplicated list. -/
def addUnique (l : List String) (x : String) : List String :=
  if l.contains x then l else l ++ [x]

/-- Whether the first char list starts with the pattern (second arg is the
scanned list). -/
def startsWithChars : List Char → List Char → Bool
  | [], _ => true
  | _ :: _, [] => false
  | p :: ps, c :: cs => p == c && startsWithChars ps cs

/-- Python s.startswith(pat). -/
def strStartsWith (s pat : String) : Bool := startsWithChars pat.data s.data

/-- Substring scan over char lists. -/
def containsChars (pat : List Char) : List Char → Bool
  | [] => startsWithChars pat []
  | c :: tl => startsWithChars pat (c :: tl) || containsChars pat tl

/-- Python (pat in s) on strings. -/
def strContains (s pat : String) : Bool := containsChars pat.data s.data

/-- Python truthiness of an optional string (None and "" are falsy). -/
def pyTruthyStr : Option String → Bool
  | none => false
  | some s => !(s == "")

/-! ## Ed25519, abstractly

The sources sign with pynacl (thread-3) or the cryptography package
(wellspring_node), which are external libraries; what the repository's own
code fixes is only WHICH bytes are signed/verified and against WHICH key.
The primitive is therefore a parameter: a deterministic signature scheme as
three functions.  The base64/hex transport encoding of the raw signature
bytes is folded into the scheme (it is a bijection applied at both ends). -/

structure SigScheme where
  pkOf : String → String
  sign : String → String → String
  verify : String → String → String → Bool

/-- Basic correctness: a signature made with sk verifies under pkOf sk. -/
def SigScheme.Correct (sch : SigScheme) : Prop :=
  ∀ sk msg, sch.verify (sch.pkOf sk) msg (sch.sign sk msg) = true

/-- A concrete correct scheme used to run the embedded code on closed
inputs: signatures record the key and the signed message, so verification
can check both (Ed25519 shares the properties the counterexamples use:
correctness, and a signature verifies only against the message it
signed). -/
def testScheme : SigScheme where
  pkOf := id
  sign := fun sk msg => sk ++ ":" ++ msg
  verify := fun pk msg sig => sig == pk ++ ":" ++ msg

theorem testScheme_correct : testScheme.Correct := by
  intro sk msg
  simp [testScheme, SigScheme.Correct]

/-! ## SignedThought (wellspring_node.py 90-145, wellspring_node_v2.py 89-144,
wellspring_repeaters.py 39-90; the three classes are identical) -/

structure SignedThought where
  type : String
  content : Json
  created_by : String
  because : List String
  visibility : Option String
  created_at : String
  signature : Option String
  cid : Option String

/-- The sign_data dict of SignedThought.sign / _verify_signature: the five
mandatory fields in insertion order, plus visibility when truthy. -/
def SignedThought.signFields (t : SignedThought) : List (String × Json) :=
  [("type", .str t.type), ("content", t.content),
   ("created_by", .str t.created_by),
   ("because", Json.mkArr (t.because.map Json.str)),
   ("created_at", .str t.created_at)] ++
  (if pyTruthyStr t.visibility then [("visibility", .str (t.visibility.getD ""))] else [])

/-- The canonical message bytes SignedThought.sign passes to Ed25519:
json.dumps(sign_data, sort_keys=True, separators=(',', ':')). -/
def SignedThought.signMessage (t : SignedThought) : String :=
  Json.dumps (Json.mkObj t.signFields)

/-- Hex chars of a byte list. -/
def hexCharsOf (bs : List Nat) : List Char :=
  bs.foldr (fun b acc => hexByte b ++ acc) []

/-- compute_cid of wellspring_node.py 37-40 (and v2, repeaters): canonical
JSON, SHA-256, first 32 hex chars behind a "baf_" tag. -/
def compute_cid (data : Json) : String :=
  String.mk ('b' :: 'a' :: 'f' :: '_' ::
    (hexCharsOf (sha256 (strBytes (Json.dumps data)))).take 32)

/-- SignedThought.sign (wellspring_node.py 101-117): sign the canonical
sign_data bytes, then compute the cid over sign_data plus the signature. -/
def SignedThought.sign (sch : SigScheme) (sk : String) (t : SignedThought) :
    SignedThought :=
  let message := t.signMessage
  let signature := sch.sign sk message
  let cid := compute_cid (Json.mkObj (t.signFields ++ [("signature", .str signature)]))
  { t with signature := some signature, cid := some cid }

/-- WellspringNode._verify_signature (wellspring_node.py 218-245, v2
377-404): choose the key (inline pubkey for GENESIS identities, else the
pubkeys table), rebuild sign_data from the stored fields, verify.  In the
source a GENESIS identity dict without content.pubkey raises before the try
block; the model returns false there instead of diverging. -/
def verifySignatureNode (sch : SigScheme) (pubkeys : List (String × String))
    (t : SignedThought) : Bool :=
  let pk? : Option String :=
    if t.type == "identity" && t.created_by == "GENESIS" then
      match t.content.get "pubkey" with
      | some (.str p) => some p
      | _ => none
    else lookupAssoc pubkeys t.created_by
  match pk?, t.signature with
  | some pk, some sig => sch.verify pk t.signMessage sig
  | _, _ => false

/-! ## BloomFilter (wellspring_node.py 46-84, identical in v2) -/

structure BloomFilter where
  size : Nat
  hash_count : Nat
  bits : List Nat

/-- BloomFilter(size, hash_count): all bits zero. -/
def BloomFilter.empty (size hash_count : Nat) : BloomFilter :=
  ⟨size, hash_count, List.replicate size 0⟩

/-- idx = mmh3.hash(item, i) % self.size: Python % on a signed value and a
positive modulus is Int.emod; modelled for size > 0 (size = 0 raises in
Python). -/
def bloomIdx (item : String) (i size : Nat) : Nat :=
  (mmh3Signed item i % (size : Int)).toNat

/-- BloomFilter.add: set the hash_count indexed bits to 1. -/
def BloomFilter.add (f : BloomFilter) (item : String) : BloomFilter :=
  { f with bits :=
      (List.range f.hash_count).foldl (fun bs i => bs.set (bloomIdx item i f.size) 1) f.bits }

/-- BloomFilter.maybe_contains: all indexed bits nonzero.  (bits[idx] on an
out-of-range index raises in Python; the model reads 0 there, and every
theorem instantiates filters with bits.length = size.) -/
def BloomFilter.maybe_contains (f : BloomFilter) (item : String) : Bool :=
  (List.range f.hash_count).all
    (fun i => !(f.bits.getD (bloomIdx item i f.size) 0 == 0))

/-- Pack eight bits b0..b7 (each 0/1) into b0 + 2 b1 + ... + 128 b7, the
effect of byte_val |= bits[i+j] << j. -/
def packByte : List Nat → Nat
  | [] => 0
  | b :: rest => b + 2 * packByte rest

/-- BloomFilter.to_hex: pack bits into bytes (low bit first), hex encode. -/
def BloomFilter.to_hex (f : BloomFilter) : String :=
  bytesToHex ((chunksOf 8 f.bits).map packByte)

/-- Hex digit value (bytes.fromhex semantics on valid digits). -/
def hexVal (c : Char) : Nat :=
  let n := c.toNat
  if 48 ≤ n && n ≤ 57 then n - 48
  else if 97 ≤ n && n ≤ 102 then n - 87
  else if 65 ≤ n && n ≤ 70 then n - 55
  else 0

/-- bytes.fromhex: consume hex-digit pairs. -/
def hexPairs : List Char → List Nat
  | a :: b :: rest => (hexVal a * 16 + hexVal b) :: hexPairs rest
  | _ => []

/-- The eight bits of a byte, low bit first: (byte >> j) & 1. -/
def byteToBits (b : Nat) : List Nat :=
  [b % 2, b / 2 % 2, b / 4 % 2, b / 8 % 2, b / 16 % 2, b / 32 % 2, b / 64 % 2, b / 128 % 2]

/-- BloomFilter.from_hex: unpack every byte into bits, truncate to size. -/
def BloomFilter.from_hex (hex_str : String) (size hash_count : Nat) : BloomFilter :=
  ⟨size, hash_count,
   ((hexPairs hex_str.data).foldr (fun b acc => byteToBits b ++ acc) []).take size⟩

/-! ## WellspringNode (V1, wellspring_node.py 151-324) -/

structure NodeStateV1 where
  thoughts : List (String × SignedThought)
  pubkeys : List (String × String)
  bloom : BloomFilter
  received_count : Nat
  sent_count : Nat
  verified_count : Nat
  rejected_count : Nat

/-- WellspringNode._store_thought (wellspring_node.py 197-216): no-op on a
known cid, reject on bad signature, else store, add to the bloom, track
GENESIS identity pubkeys. -/
def NodeStateV1.store (sch : SigScheme) (st : NodeStateV1) (t : SignedThought) :
    NodeStateV1 × Bool :=
  let cid := t.cid.getD ""
  if dictContains st.thoughts cid then (st, false)
  else if !(verifySignatureNode sch st.pubkeys t) then
    ({ st with rejected_count := st.rejected_count + 1 }, false)
  else
    let st1 := { st with thoughts := dictInsert st.thoughts cid t,
                         bloom := st.bloom.add cid,
                         verified_count := st.verified_count + 1 }
    let st2 :=
      if t.type == "identity" && t.created_by == "GENESIS" then
        match t.content.get "pubkey" with
        | some (.str p) => { st1 with pubkeys := dictInsert st1.pubkeys cid p }
        | _ => st1
      else st1
    (st2, true)

/-- WellspringNode.get_missing_for_peer (wellspring_node.py 250-284): every
stored thought the peer's bloom filter misses, preceded by the creator
identities the bloom also misses; NO visibility filtering.  Python's
first-pass and identity sets are modelled in insertion order. -/
def NodeStateV1.get_missing_for_peer (st : NodeStateV1) (peer_bloom_hex : String) :
    List SignedThought :=
  let peer_bloom := BloomFilter.from_hex peer_bloom_hex 1024 3
  let missing_cids := st.thoughts.foldl
    (fun acc p => if peer_bloom.maybe_contains p.1 then acc else addUnique acc p.1) []
  let needed_identities := missing_cids.foldl
    (fun acc cid =>
      match lookupAssoc st.thoughts cid with
      | some t =>
        if t.created_by != "GENESIS" && dictContains st.thoughts t.created_by
            && !peer_bloom.maybe_contains t.created_by then
          addUnique acc t.created_by
        else acc
      | none => acc) []
  let front := (needed_identities.filter (fun c => !missing_cids.contains c)).filterMap
    (lookupAssoc st.thoughts)
  front ++ missing_cids.filterMap (lookupAssoc st.thoughts)

/-- The sort key of receive_thoughts (wellspring_node.py 289-292, v2
484-487): (0 if identity else 1, created_at). -/
def receiveKey (t : SignedThought) : Nat × String :=
  (if t.type == "identity" then 0 else 1, t.created_at)

/-- Lexicographic comparison of receive keys (Python tuple <). -/
def receiveKeyLt (a b : Nat × String) : Bool :=
  decide (a.1 < b.1) || (a.1 == b.1 && strLt a.2 b.2)

/-- Stable insertion used to model Python's stable sorted(). -/
def insertByReceiveKey (x : SignedThought) : List SignedThought → List SignedThought
  | [] => [x]
  | y :: ys =>
    if receiveKeyLt (receiveKey y) (receiveKey x) then y :: insertByReceiveKey x ys
    else x :: y :: ys

/-- sorted(thoughts, key=...) at the receiver: identities first, then by
created_at. -/
def receiveSorted (l : List SignedThought) : List SignedThought :=
  l.foldr insertByReceiveKey []

/-! ## WellspringNodeV2 (wellspring_node_v2.py 150-558) -/

structure NodeStateV2 where
  thoughts : List (String × SignedThought)
  pubkeys : List (String × String)
  bloom : BloomFilter
  pool_memberships : List (String × List String)
  peer_shared_pools : List (String × List String)
  known_peers : List (String × SignedThought)
  filtered_count : Nat

/-- WellspringNodeV2.is_pool_member (v2 230-232). -/
def NodeStateV2.is_pool_member (st : NodeStateV2) (pool_cid identity_cid : String) : Bool :=
  ((lookupAssoc st.pool_memberships pool_cid).getD []).contains identity_cid

/-- WellspringNodeV2.get_shared_pools (v2 256-258). -/
def NodeStateV2.get_shared_pools (st : NodeStateV2) (peer_cid : String) : List String :=
  (lookupAssoc st.peer_shared_pools peer_cid).getD []

/-- The participants list of a thought (v2 304): content.participants as a
JSON array, empty when absent or not an array. -/
def participantsOf (t : SignedThought) : JsonList :=
  match t.content.get "participants" with
  | some (.arr l) => l
  | _ => .nil

/-- The peer_name local of _can_share_with_peer (v2 306): the name field of
the peer's recorded identity; a peer with no recorded identity or name
contributes Python None, i.e. JSON null, to the membership test. -/
def codePeerName (st : NodeStateV2) (peer_cid : String) : Json :=
  match lookupAssoc st.known_peers peer_cid with
  | some p => (p.content.get "name").getD Json.null
  | none => Json.null

/-- WellspringNodeV2._can_share_with_peer (v2 264-314). -/
def NodeStateV2.can_share_with_peer (st : NodeStateV2) (t : SignedThought)
    (peer_cid : String) : Bool × String :=
  match t.visibility with
  | none => (true, "public")
  | some v =>
    if v == "public" then (true, "public")
    else if v == "local_forever" then (false, "local_forever")
    else if strStartsWith v "pool:" then
      let pool_cid := String.mk (v.data.drop 5)
      if st.is_pool_member pool_cid peer_cid then (true, "peer_is_member:" ++ pool_cid)
      else if (st.get_shared_pools peer_cid).contains pool_cid then
        (true, "shared_pool:" ++ pool_cid)
      else (false, "no_pool_access:" ++ pool_cid)
    else if v == "participants_only" then
      if (participantsOf t).holds (Json.str peer_cid) ||
          (participantsOf t).holds (codePeerName st peer_cid) then
        (true, "is_participant")
      else (false, "not_participant")
    else (false, "unknown_visibility:" ++ v)

/-- The filter statistics get_missing_for_peer returns. -/
structure SyncStats where
  total_checked : Nat
  missing : Nat
  filtered_local_forever : Nat
  filtered_pool_access : Nat
  filtered_participants : Nat
  shared : Nat

/-- Reason-substring classification of a withheld thought (v2 446-452). -/
def classifyFiltered (stats : SyncStats) (reason : String) : SyncStats :=
  if strContains reason "local_forever" then
    { stats with filtered_local_forever := stats.filtered_local_forever + 1 }
  else if strContains reason "pool_access" then
    { stats with filtered_pool_access := stats.filtered_pool_access + 1 }
  else if strContains reason "participant" then
    { stats with filtered_participants := stats.filtered_participants + 1 }
  else stats

/-- WellspringNodeV2.get_missing_for_peer (v2 413-479): bloom-missing
thoughts, filtered by visibility, with shareable creators' identities
prepended; the third component is the amount self.filtered_count grows by.
Python set iteration is modelled in insertion order. -/
def NodeStateV2.get_missing_for_peer (st : NodeStateV2) (peer_bloom_hex peer_cid : String) :
    List SignedThought × SyncStats × Nat :=
  let peer_bloom := BloomFilter.from_hex peer_bloom_hex 1024 3
  let missing_cids := st.thoughts.foldl
    (fun acc p => if peer_bloom.maybe_contains p.1 then acc else addUnique acc p.1) []
  let stats0 : SyncStats :=
    ⟨st.thoughts.length, missing_cids.length, 0, 0, 0, 0⟩
  let pass2 := missing_cids.foldl
    (fun (acc : List String × SyncStats × Nat) cid =>
      match lookupAssoc st.thoughts cid with
      | some t =>
        let cs := st.can_share_with_peer t peer_cid
        if cs.1 then (acc.1 ++ [cid], acc.2.1, acc.2.2)
        else (acc.1, classifyFiltered acc.2.1 cs.2, acc.2.2 + 1)
      | none => acc)
    ([], stats0, 0)
  let shareable_cids := pass2.1
  let needed_identities := shareable_cids.foldl
    (fun acc cid =>
      match lookupAssoc st.thoughts cid with
      | some t =>
        if t.created_by != "GENESIS" && dictContains st.thoughts t.created_by
            && !peer_bloom.maybe_contains t.created_by then
          match lookupAssoc st.thoughts t.created_by with
          | some idT =>
            if (st.can_share_with_peer idT peer_cid).1 then addUnique acc t.created_by
            else acc
          | none => acc
        else acc
      | none => acc) []
  let front := (needed_identities.filter (fun c => !shareable_cids.contains c)).filterMap
    (lookupAssoc st.thoughts)
  let rest := shareable_cids.filterMap (lookupAssoc st.thoughts)
  (front ++ rest,
   { pass2.2.1 with shared := front.length + rest.length },
   pass2.2.2)

/-! ## Unsorted default-separator json.dumps (used by thread-3's audit log) -/

mutual

/-- json.dumps with the default separators (', ', ': ') and no key sorting,
as thread-3's store_thought uses for the JSONL line and the row columns. -/
def Json.dumpsPy : Json → String
  | .null => "null"
  | .bool true => "true"
  | .bool false => "false"
  | .num n => toString n
  | .str s => jsonQuote s
  | .arr xs => "[" ++ JsonList.dumpsPy xs ++ "]"
  | .obj kvs => "\x7b" ++ JsonFields.dumpsPy kvs ++ "\x7d"
  termination_by structural j => j

/-- Array elements joined by ', '. -/
def JsonList.dumpsPy : JsonList → String
  | .nil => ""
  | .cons x .nil => Json.dumpsPy x
  | .cons x (.cons y ys) => Json.dumpsPy x ++ ", " ++ JsonList.dumpsPy (.cons y ys)
  termination_by structural l => l

/-- Object fields joined by ', ', each as key: value. -/
def JsonFields.dumpsPy : JsonFields → String
  | .nil => ""
  | .cons k v .nil => jsonQuote k ++ ": " ++ Json.dumpsPy v
  | .cons k v (.cons k2 v2 tl) =>
    jsonQuote k ++ ": " ++ Json.dumpsPy v ++ ", " ++ JsonFields.dumpsPy (.cons k2 v2 tl)
  termination_by structural l => l

end

/-- Optional string as the JSON value asdict produces (None becomes null). -/
def optStrJson : Option String → Json
  | none => Json.null
  | some s => Json.str s

/-! ## thread-3/core.py: identities, thoughts, CID over BLAKE3, storage -/

namespace Thread3

/-- Identity (core.py 42-48); _privkey is the local_forever secret. -/
structure Identity where
  name : String
  pubkey : String
  cid : String
  privkey : Option String

/-- canonicalize (core.py 93-95). -/
def canonicalize (obj : Json) : String := Json.dumps obj

/-- compute_cid (core.py 98-105): BLAKE3 over the canonical bytes, behind a
"cid:blake3:" tag. -/
def compute_cid (content : Json) : String := "cid:blake3:" ++ blake3Hex (canonicalize content)

/-- create_identity (core.py 51-69), with the freshly generated private key
taken as input (nacl's keypair generation is external randomness) and the
public key derived through the scheme. -/
def create_identity (sch : SigScheme) (name privkey_hex : String) : Identity :=
  let pubkey_hex := sch.pkOf privkey_hex
  let identity_content := Json.mkObj
    [("type", .str "identity"), ("name", .str name),
     ("pubkey", .str ("ed25519:" ++ pubkey_hex))]
  { name := name, pubkey := "ed25519:" ++ pubkey_hex,
    cid := compute_cid identity_content, privkey := some privkey_hex }

/-- Thought (core.py 124-134). -/
structure Thought where
  cid : String
  type : String
  content : Json
  created_by : String
  created_at : Int
  because : List String
  signature : String
  visibility : Option String
  source : Option String

/-- sign_content (core.py 180-187): sign the CID string with the private
key; none models the ValueError on a missing key. -/
def sign_content (sch : SigScheme) (cid : String) (identity : Identity) : Option String :=
  match identity.privkey with
  | none => none
  | some k => some (sch.sign k cid)

/-- The signable dict of create_thought (core.py 152-162): type, content,
created_by, created_at, because in insertion order, plus truthy visibility
and source. -/
def signable (thought_type : String) (content : Json) (identity_cid : String)
    (created_at : Int) (because : List String) (visibility source : Option String) : Json :=
  Json.mkObj
    ([("type", .str thought_type), ("content", content),
      ("created_by", .str identity_cid), ("created_at", .num created_at),
      ("because", Json.mkArr (because.map Json.str))] ++
     (if pyTruthyStr visibility then [("visibility", .str (visibility.getD ""))] else []) ++
     (if pyTruthyStr source then [("source", .str (source.getD ""))] else []))

/-- create_thought (core.py 138-177): the CID is computed from the signable
fields (the signature is NOT among them), then the CID is signed.
created_at (time.time) is an input. -/
def create_thought (sch : SigScheme) (content : Json) (thought_type : String)
    (identity : Identity) (because : List String) (visibility source : Option String)
    (created_at : Int) : Option Thought :=
  match identity.privkey with
  | none => none
  | some k =>
    let sgn := signable thought_type content identity.cid created_at because visibility source
    let cid := compute_cid sgn
    some { cid := cid, type := thought_type, content := content,
           created_by := identity.cid, created_at := created_at, because := because,
           signature := sch.sign k cid, visibility := visibility, source := source }

/-- Strip every "ed25519:" occurrence (Python str.replace scans left to
right, non-overlapping). -/
def removeTag : List Char → List Char
  | 'e' :: 'd' :: '2' :: '5' :: '5' :: '1' :: '9' :: ':' :: rest => removeTag rest
  | c :: tl => c :: removeTag tl
  | [] => []

/-- verify_signature (core.py 190-198): verify the signature against the
CID bytes under the tag-stripped public key; decoding failures are folded
into the scheme's verify. -/
def verify_signature (sch : SigScheme) (t : Thought) (pubkey : String) : Bool :=
  sch.verify (String.mk (removeTag pubkey.data)) t.cid t.signature

/-- One row of the SQLite thoughts table (core.py 229-246): content and
because are stored as their (default-form) JSON serializations. -/
structure Row where
  cid : String
  type : String
  content : String
  created_by : String
  created_at : Int
  because : String
  signature : String
  visibility : Option String
  source : Option String
deriving DecidableEq

/-- The row store_thought writes for a thought. -/
def rowOf (t : Thought) : Row :=
  { cid := t.cid, type := t.type, content := Json.dumpsPy t.content,
    created_by := t.created_by, created_at := t.created_at,
    because := Json.dumpsPy (Json.mkArr (t.because.map Json.str)),
    signature := t.signature, visibility := t.visibility, source := t.source }

/-- The SQLite table (keyed by cid, INSERT OR REPLACE) plus the JSONL
append-only log. -/
structure Store where
  table : List (String × Row)
  jsonl : List String
deriving DecidableEq

/-- asdict(thought) in dataclass field order; None fields serialize to
null. -/
def asdictJson (t : Thought) : Json :=
  Json.mkObj
    [("cid", .str t.cid), ("type", .str t.type), ("content", t.content),
     ("created_by", .str t.created_by), ("created_at", .num t.created_at),
     ("because", Json.mkArr (t.because.map Json.str)),
     ("signature", .str t.signature),
     ("visibility", optStrJson t.visibility), ("source", optStrJson t.source)]

/-- store_thought (core.py 229-253): INSERT OR REPLACE the row, then
unconditionally append one JSONL line. -/
def store_thought (db : Store) (t : Thought) : Store :=
  { table := dictInsert db.table t.cid (rowOf t),
    jsonl := db.jsonl ++ [Json.dumpsPy (asdictJson t)] }

end Thread3

/-! ## thread-2/wellspring_embeddings.py: trust-weighted retrieval scoring -/

namespace Thread2

/-- One joined row of EmbeddingPipeline.query's SELECT (embeddings 415-428).
The row's cosine similarity to the query embedding is carried as data: the
embedding vectors live in float space outside this model, and the claims
under study constrain only how the returned relevance is composed from the
row's similarity and trust metadata. -/
structure IndexRow where
  cid : String
  similarity : ℚ
  text : String
  appetite : Option String
  trust_weight : Option ℚ
  chain_depth : Option Int
  created_at : Option Int

/-- Python truthiness of the nullable created_at (None and 0 are falsy). -/
def pyTruthyIntOpt : Option Int → Bool
  | none => false
  | some n => !(n == 0)

/-- Python (x or 0) for the nullable chain_depth. -/
def pyOrZeroInt : Option Int → Int
  | none => 0
  | some n => n

/-- Python max(a, b). -/
def pyMax (a b : ℚ) : ℚ := if a ≤ b then b else a

/-- The per-row relevance of EmbeddingPipeline.query (embeddings 430-455):
with trust weighting, relevance = similarity * trust * chain_boost *
recency, where trust falls back to 1.0 when trust_weight is falsy (NULL or
0.0), chain_boost = 1/(1 + 0.1 * chain_depth), and recency =
max(0.5, 1 - recency_decay * hours_old) when a positive decay and a truthy
created_at are present, else 1. -/
def scoreRow (apply_trust_weighting : Bool) (recency_decay : ℚ) (now_ms : Int)
    (r : IndexRow) : ℚ :=
  let similarity := r.similarity
  if apply_trust_weighting then
    let trust : ℚ :=
      match r.trust_weight with
      | some w => if w == 0 then 1 else w
      | none => 1
    let chain_boost : ℚ := 1 / (1 + ((pyOrZeroInt r.chain_depth : Int) : ℚ) * (1 / 10))
    let recency : ℚ :=
      if recency_decay > 0 && pyTruthyIntOpt r.created_at then
        let hours_old : ℚ := (((now_ms - (r.created_at.getD 0) : Int) : ℚ)) / 3600000
        pyMax (1 / 2) (1 - recency_decay * hours_old)
      else 1
    similarity * trust * chain_boost * recency
  else similarity

/-- Stable insertion for the descending relevance sort. -/
def insertByRelevance (x : String × ℚ × String) :
    List (String × ℚ × String) → List (String × ℚ × String)
  | [] => [x]
  | y :: ys => if x.2.1 < y.2.1 then y :: insertByRelevance x ys else x :: y :: ys

/-- results.sort(key=relevance, reverse=True): stable, larger first. -/
def sortByRelevanceDesc (l : List (String × ℚ × String)) :
    List (String × ℚ × String) :=
  l.foldr insertByRelevance []

/-- EmbeddingPipeline.query (embeddings 387-469) after the SELECT: skip
pending_attestation rows when exclude_pending, score each remaining row,
sort by relevance descending, truncate to top_k.  Each result is
(cid, relevance, text_snippet). -/
def query (rows : List IndexRow) (top_k : Nat)
    (apply_trust_weighting exclude_pending : Bool) (recency_decay : ℚ)
    (now_ms : Int) : List (String × ℚ × String) :=
  let results := rows.foldr
    (fun r acc =>
      if exclude_pending && (r.appetite == some "pending_attestation") then acc
      else (r.cid, scoreRow apply_trust_weighting recency_decay now_ms r, r.text) :: acc)
    []
  (sortByRelevanceDesc results).take top_k

end Thread2

/-! ## wellspring_trust_network.py: TrustGraph (breadth-first transitive trust) -/

namespace TrustNet

/-- TrustGraph (trust_network 69-125): direct_trust[from][to] = weight as an
insertion-ordered dict of dicts, and the per-hop decay (0.8 in the
source). -/
structure TrustGraph where
  direct_trust : List (String × List (String × ℚ))
  decay : ℚ

/-- TrustGraph.add_trust (trust_network 81-83): defaultdict assignment. -/
def add_trust (g : TrustGraph) (from_id to_id : String) (weight : ℚ) : TrustGraph :=
  let dt :=
    if dictContains g.direct_trust from_id then
      g.direct_trust.map
        (fun p => if p.1 == from_id then (p.1, dictInsert p.2 to_id weight) else p)
    else g.direct_trust ++ [(from_id, [(to_id, weight)])]
  { g with direct_trust := dt }

/-- direct_trust.get(key, {}). -/
def adjOf (g : TrustGraph) (k : String) : List (String × ℚ) :=
  (lookupAssoc g.direct_trust k).getD []

/-- One BFS service of the queue head: walk the adjacency list, updating
(visited, queue, best) exactly as trust_network 110-123 does; nodes are
marked visited at enqueue time. -/
def bfsVisit (adj : List (String × ℚ)) (decay : ℚ) (target : String)
    (trust_so_far : ℚ) (path : List String)
    (acc0 : List String × List (String × ℚ × List String) × ℚ) :
    List String × List (String × ℚ × List String) × ℚ :=
  adj.foldl
    (fun acc e =>
      if acc.1.contains e.1 then acc
      else
        let new_trust := trust_so_far * e.2 * decay
        if e.1 == target then
          (acc.1, acc.2.1, if acc.2.2 < new_trust then new_trust else acc.2.2)
        else
          (acc.1 ++ [e.1], acc.2.1 ++ [(e.1, new_trust, path ++ [e.1])], acc.2.2))
    acc0

/-- The while-loop of TrustGraph.compute_trust (trust_network 104-123),
with fuel bounding the number of queue pops (each node is enqueued at most
once, so graphFuel below suffices). -/
def bfsRun (g : TrustGraph) (target : String) (max_hops : Nat) :
    Nat → List (String × ℚ × List String) → List String → ℚ → ℚ
  | 0, _, _, best => best
  | _ + 1, [], _, best => best
  | fuel + 1, (current, trust_so_far, path) :: qrest, visited, best =>
    if max_hops + 1 < path.length then bfsRun g target max_hops fuel qrest visited best
    else
      let step := bfsVisit (adjOf g current) g.decay target trust_so_far path
        (visited, qrest, best)
      bfsRun g target max_hops fuel step.2.1 step.1 step.2.2
  termination_by structural fuel => fuel

/-- An upper bound on BFS pops: one per initial entry plus one per edge. -/
def graphFuel (g : TrustGraph) : Nat :=
  1 + g.direct_trust.foldl (fun acc p => acc + 1 + p.2.length) 0

/-- TrustGraph.compute_trust (trust_network 85-125): self-trust 1.0, else
the direct edge weight, else the best decayed product found by the
visited-marking BFS (score only; the source also returns the path). -/
def compute_trust (g : TrustGraph) (viewer target : String) (max_hops : Nat) : ℚ :=
  if viewer == target then 1
  else
    match lookupAssoc (adjOf g viewer) target with
    | some w => w
    | none => bfsRun g target max_hops (graphFuel g) [(viewer, 1, [viewer])] [viewer] 0

end TrustNet

/-! ## wellspring_repeaters.py: TrustGraphWithRepeaters -/

namespace Repeaters

/-- TrustGraphWithRepeaters (repeaters 126-230): edges and repeater
designations as insertion-ordered dicts; the memo cache is threaded
explicitly (the source mutates self.cache). -/
structure Graph where
  edges : List (String × List (String × ℚ))
  repeaters : List (String × List (String × List String))

/-- The memo cache: (from, to, use_repeaters) to score. -/
abbrev Cache := List ((String × String × Bool) × ℚ)

/-- compute_trust with use_repeaters=False (repeaters 146-230, the
repeater block skipped): fuel is 11 - depth, so depth > 10 is fuel = 0;
visited is copied into each recursive branch; the running best and the
cache thread through the edge loop.  Only the score of the returned
(score, path) pair is modelled. -/
def compute_trust_norep (g : Graph) (decay : ℚ) :
    Nat → String → String → List String → Cache → ℚ × Cache
  | fuel, from_cid, to_cid, visited, cache =>
    if from_cid == to_cid then (1, cache)
    else
      match lookupAssoc cache (from_cid, to_cid, false) with
      | some v => (v, cache)
      | none =>
        if visited.contains from_cid then (0, cache)
        else
          match fuel with
          | 0 => (0, cache)
          | fuel' + 1 =>
            let visited' := visited ++ [from_cid]
            match lookupAssoc g.edges from_cid with
            | none => (0, cache)
            | some adj =>
              match lookupAssoc adj to_cid with
              | some w => (w, dictInsert cache (from_cid, to_cid, false) w)
              | none =>
                let step := adj.foldl
                  (fun (acc : ℚ × Cache) e =>
                    if e.2 > 0 && !visited'.contains e.1 then
                      let sub := compute_trust_norep g decay fuel' e.1 to_cid visited' acc.2
                      let path_trust := e.2 * sub.1 * decay
                      (if acc.1 < path_trust then path_trust else acc.1, sub.2)
                    else acc)
                  (0, cache)
                (step.1, dictInsert step.2 (from_cid, to_cid, false) step.1)
  termination_by structural fuel f t v c => fuel

/-- The repeater loop of compute_trust (repeaters 172-198): designations in
insertion order; the first domain-matching repeater with both legs positive
ends the call with the product of the two legs (each leg computed without
repeater recursion, fresh visited set, depth 0, on the current cache). -/
def rep_loop (g : Graph) (decay : ℚ) (domain : Option String)
    (from_cid to_cid : String) :
    List (String × List String) → Cache → Option ℚ × Cache
  | [], cache => (none, cache)
  | (repeater_cid, domains) :: rest, cache =>
    let dmatch :=
      match domain with
      | none => true
      | some d => domains.contains d || domains.contains "*"
    if dmatch then
      let legA := compute_trust_norep g decay 11 from_cid repeater_cid [] cache
      if legA.1 > 0 then
        let legB := compute_trust_norep g decay 11 repeater_cid to_cid [] legA.2
        if legB.1 > 0 then
          let final := legA.1 * legB.1
          (some final, dictInsert legB.2 (from_cid, to_cid, true) final)
        else rep_loop g decay domain from_cid to_cid rest legB.2
      else rep_loop g decay domain from_cid to_cid rest legA.2
    else rep_loop g decay domain from_cid to_cid rest cache

/-- The self/cache guards of compute_trust (repeaters 156-161), which are
the whole behaviour once depth > 10 (the fuel-exhausted case: every later
guard returns 0.0). -/
def rep_base (from_cid to_cid : String) (cache : Cache) : ℚ × Cache :=
  if from_cid == to_cid then (1, cache)
  else
    match lookupAssoc cache (from_cid, to_cid, true) with
    | some v => (v, cache)
    | none => (0, cache)

/-- One unfolding of compute_trust with use_repeaters=True (repeaters
146-230): the self/cache/visited guards, then the repeater shortcut loop,
then direct edge or decayed transitive recursion through `recur`. -/
def rep_step (g : Graph) (decay : ℚ) (domain : Option String)
    (recur : String → String → List String → Cache → ℚ × Cache)
    (from_cid to_cid : String) (visited : List String) (cache : Cache) : ℚ × Cache :=
  if from_cid == to_cid then (1, cache)
  else
    match lookupAssoc cache (from_cid, to_cid, true) with
    | some v => (v, cache)
    | none =>
      if visited.contains from_cid then (0, cache)
      else
        let visited' := visited ++ [from_cid]
        let reps := (lookupAssoc g.repeaters from_cid).getD []
        let rl := rep_loop g decay domain from_cid to_cid reps cache
        match rl.1 with
        | some v => (v, rl.2)
        | none =>
          match lookupAssoc g.edges from_cid with
          | none => (0, rl.2)
          | some adj =>
            match lookupAssoc adj to_cid with
            | some w => (w, dictInsert rl.2 (from_cid, to_cid, true) w)
            | none =>
              let step := adj.foldl
                (fun (acc : ℚ × Cache) e =>
                  if e.2 > 0 && !visited'.contains e.1 then
                    let sub := recur e.1 to_cid visited' acc.2
                    let path_trust := e.2 * sub.1 * decay
                    (if acc.1 < path_trust then path_trust else acc.1, sub.2)
                  else acc)
                (0, rl.2)
              (step.1, dictInsert step.2 (from_cid, to_cid, true) step.1)

/-- compute_trust with use_repeaters=True (repeaters 146-230), as the
fueled iterate of rep_step with rep_base at depth exhaustion. -/
def compute_trust_rep (g : Graph) (decay : ℚ) (domain : Option String) :
    Nat → String → String → List String → Cache → ℚ × Cache
  | 0, from_cid, to_cid, _, cache => rep_base from_cid to_cid cache
  | fuel + 1, from_cid, to_cid, visited, cache =>
    rep_step g decay domain (compute_trust_rep g decay domain fuel)
      from_cid to_cid visited cache
  termination_by structural fuel f t v c => fuel

/-- The public entry point (repeaters 146-151 defaults): depth 0 is fuel
11, fresh visited, decay 0.8, the node's current cache threaded in and
out. -/
def compute_trust (g : Graph) (from_cid to_cid : String) (use_repeaters : Bool)
    (domain : Option String) (cache : Cache) : ℚ × Cache :=
  if use_repeaters then compute_trust_rep g (4/5) domain 11 from_cid to_cid [] cache
  else compute_trust_norep g (4/5) 11 from_cid to_cid [] cache

end Repeaters

/-! # Claims

The remainder of the file states and settles the specification's claims
against the embedded code. -/

/-! ## Shared dictionary lemmas -/

theorem any_map_key [BEq κ] [LawfulBEq κ] (l : List (κ × α)) (k : κ) (v : α)
    (h : l.any (fun p => p.1 == k) = true) :
    (l.map (fun p => if p.1 == k then (k, v) else p)).any (fun p => p.1 == k) = true := by
  induction l with
  | nil => simp at h
  | cons p tl ih =>
    simp only [List.any_cons, Bool.or_eq_true] at h
    rcases h with h | h
    · simp [List.map_cons, List.any_cons, h]
    · simp [List.map_cons, List.any_cons, ih h]

theorem dictContains_dictInsert_self [BEq κ] [LawfulBEq κ] (l : List (κ × α)) (k : κ) (v : α) :
    dictContains (dictInsert l k v) k = true := by
  unfold dictInsert
  by_cases h : dictContains l k = true
  · rw [if_pos h]
    exact any_map_key l k v h
  · rw [if_neg h]
    simp [dictContains]

theorem dictInsert_idem [BEq κ] [LawfulBEq κ] (l : List (κ × α)) (k : κ) (v : α) :
    dictInsert (dictInsert l k v) k v = dictInsert l k v := by
  unfold dictInsert
  by_cases h : dictContains l k = true
  · rw [if_pos h]
    have hc := any_map_key l k v (by simpa [dictContains] using h)
    rw [if_pos (by simpa [dictContains] using hc), List.map_map]
    apply List.map_congr_left
    intro p _
    by_cases hp : p.1 == k
    · simp [Function.comp, hp]
    · simp [Function.comp, hp]
  · rw [if_neg h]
    have hc : dictContains (l ++ [(k, v)]) k = true := by simp [dictContains]
    rw [if_pos hc, List.map_append]
    have hall : ∀ p ∈ l, (p.1 == k) = false := by
      intro p hp
      by_contra hne
      exact h (by simp only [dictContains, List.any_eq_true]
                  exact ⟨p, hp, by simpa using hne⟩)
    have h1 : l.map (fun p => if p.1 == k then (k, v) else p) = l := by
      conv_rhs => rw [← List.map_id l]
      apply List.map_congr_left
      intro p hp
      simp [hall p hp]
    simp [h1]

/-! ## C6 — store idempotence and the append-only log

thread-3's store_thought (core.py 229-253) INSERT-OR-REPLACEs the SQLite
row (same row for the same thought, so the table is idempotent) but appends
a JSONL line UNCONDITIONALLY, so put(T); put(T) appends a second, identical
log line: the claim's "no duplicate log line beyond the first" fails.
wellspring_node's _store_thought (197-216) keeps no log and is a strict
no-op on a known CID. -/

/-- A concrete thread-3 thought for running the store. -/
def t6thought : Thread3.Thought :=
  { cid := "c1", type := "basic", content := .str "x", created_by := "id1",
    created_at := 5, because := [], signature := "sg", visibility := none,
    source := none }

/-- C6 counterexample: storing the same thought twice leaves the SQLite
table unchanged but appends a SECOND identical JSONL line, so the log state
after put(T); put(T) differs from the state after put(T) and carries a
duplicate line — the claim, as stated, is false on thread-3's
store_thought. -/
theorem store_thought_appends_duplicate_log_line :
    (Thread3.store_thought (Thread3.store_thought ⟨[], []⟩ t6thought) t6thought).table =
      (Thread3.store_thought ⟨[], []⟩ t6thought).table ∧
    (Thread3.store_thought (Thread3.store_thought ⟨[], []⟩ t6thought) t6thought).jsonl =
      [Json.dumpsPy (Thread3.asdictJson t6thought),
       Json.dumpsPy (Thread3.asdictJson t6thought)] ∧
    Thread3.store_thought (Thread3.store_thought ⟨[], []⟩ t6thought) t6thought ≠
      Thread3.store_thought ⟨[], []⟩ t6thought := by
  decide

/-- A _store_thought call on an already-present CID returns the state
unchanged and False (wellspring_node.py 199-201). -/
theorem storeV1_noop_of_contains (sch : SigScheme) (st : NodeStateV1) (u : SignedThought)
    (h : dictContains st.thoughts (u.cid.getD "") = true) :
    NodeStateV1.store sch st u = (st, false) := by
  unfold NodeStateV1.store
  rw [if_pos h]

/-- A successful _store_thought leaves the thought's CID present. -/
theorem storeV1_success_contains (sch : SigScheme) (st : NodeStateV1) (u : SignedThought)
    (h : (NodeStateV1.store sch st u).2 = true) :
    dictContains (NodeStateV1.store sch st u).1.thoughts (u.cid.getD "") = true := by
  unfold NodeStateV1.store at h ⊢
  by_cases h1 : dictContains st.thoughts (u.cid.getD "") = true
  · rw [if_pos h1] at h
    simp at h
  · rw [if_neg h1] at h ⊢
    by_cases h2 : verifySignatureNode sch st.pubkeys u = true
    · simp only [h2, Bool.not_true, Bool.false_eq_true, if_false] at h ⊢
      split <;>
        first
        | exact dictContains_dictInsert_self st.thoughts (u.cid.getD "") u
        | (split <;> exact dictContains_dictInsert_self st.thoughts (u.cid.getD "") u)
    · simp only [Bool.not_eq_true] at h2
      simp [h2] at h

/-- C6 amended: put(T); put(T) leaves the thought TABLE in the same state
as put(T) alone, and in wellspring_node a second _store_thought of a stored
thought is a complete no-op returning False; but thread-3's JSONL audit log
receives one line per store_thought call, so a duplicate put appends a
duplicate line rather than nothing. -/
theorem put_put_same_table_one_log_line_per_call
    (db : Thread3.Store) (t : Thread3.Thought) (sch : SigScheme)
    (st : NodeStateV1) (u : SignedThought)
    (h : (NodeStateV1.store sch st u).2 = true) :
    (Thread3.store_thought (Thread3.store_thought db t) t).table =
      (Thread3.store_thought db t).table ∧
    (Thread3.store_thought db t).jsonl =
      db.jsonl ++ [Json.dumpsPy (Thread3.asdictJson t)] ∧
    NodeStateV1.store sch (NodeStateV1.store sch st u).1 u =
      ((NodeStateV1.store sch st u).1, false) := by
  exact ⟨dictInsert_idem _ _ _, rfl,
    storeV1_noop_of_contains sch _ u (storeV1_success_contains sch st u h)⟩

/-! ## C8 — trust-weighted relevance composition

EmbeddingPipeline.query composes relevance = similarity * trust *
chain_boost * recency, with chain_boost and recency exactly as the spec
says —但 the trust factor is `trust_weight if trust_weight else 1.0`
(embeddings 440): a stored weight of 0.0 is FALSY in Python, so the
boundary case w = 0 scores with weight 1.0, not 0. -/

/-- A row whose stored trust weight is exactly 0. -/
def r8zero : Thread2.IndexRow :=
  { cid := "r1", similarity := 1/2, text := "tx", appetite := none,
    trust_weight := some 0, chain_depth := some 0, created_at := none }

/-- C8 counterexample: with stored trust_weight w = 0, the returned
relevance is similarity (weight replaced by 1.0), not
similarity * 0 * chain_boost * recency = 0 as the claim's formula requires
at the boundary case. -/
theorem query_zero_weight_row_scores_nonzero :
    Thread2.query [r8zero] 10 true true (1/10000) 0 = [("r1", 1/2, "tx")] ∧
    r8zero.trust_weight = some 0 ∧
    ¬((1 : ℚ)/2 = r8zero.similarity * 0 * (1 / (1 + (1/10) * (0 : ℚ))) * 1) := by
  refine ⟨?_, rfl, by norm_num [r8zero]⟩
  simp [Thread2.query, Thread2.scoreRow, r8zero, Thread2.sortByRelevanceDesc,
    Thread2.insertByRelevance, Thread2.pyOrZeroInt, Thread2.pyTruthyIntOpt] <;>
    norm_num

/-- Membership through the stable descending-relevance insertion. -/
theorem mem_insertByRelevance (e x : String × ℚ × String)
    (l : List (String × ℚ × String)) :
    e ∈ Thread2.insertByRelevance x l ↔ e = x ∨ e ∈ l := by
  induction l with
  | nil => simp [Thread2.insertByRelevance]
  | cons y ys ih =>
    unfold Thread2.insertByRelevance
    split <;> simp only [List.mem_cons, ih] <;> tauto

/-- The descending sort is membership-preserving. -/
theorem mem_sortByRelevanceDesc (e : String × ℚ × String)
    (l : List (String × ℚ × String)) :
    e ∈ Thread2.sortByRelevanceDesc l ↔ e ∈ l := by
  induction l with
  | nil => simp [Thread2.sortByRelevanceDesc]
  | cons y ys ih =>
    unfold Thread2.sortByRelevanceDesc at ih ⊢
    rw [List.foldr_cons, mem_insertByRelevance, ih, List.mem_cons]

/-- C8 amended: with trust weighting on, the relevance attached to a row
with stored weight w ≠ 0, chain depth c and a truthy created_at under a
positive per-hour decay d is similarity * w * (1/(1 + 0.1 c)) *
max(0.5, 1 - d * hours_old); in the boundary case w = 0 the code
substitutes weight 1.0 (Python falsiness), scoring
similarity * 1 * chain_boost * recency; and every tuple query returns is
(cid, scoreRow row, snippet) of a stored row. -/
theorem query_trust_weighted_relevance (d : ℚ) (now : Int) :
    (∀ (r : Thread2.IndexRow) (w : ℚ) (c ca : Int),
        r.trust_weight = some w → w ≠ 0 → r.chain_depth = some c →
        r.created_at = some ca → ca ≠ 0 → 0 < d →
        Thread2.scoreRow true d now r =
          r.similarity * w * (1 / (1 + (1/10) * (c : ℚ))) *
            Thread2.pyMax (1/2) (1 - d * (((now - ca : Int) : ℚ) / 3600000))) ∧
    (∀ (r : Thread2.IndexRow) (c : Int),
        r.trust_weight = some 0 → r.chain_depth = some c → r.created_at = none →
        Thread2.scoreRow true d now r =
          r.similarity * 1 * (1 / (1 + (1/10) * (c : ℚ))) * 1) ∧
    (∀ (rows : List Thread2.IndexRow) (k : Nat) (e : String × ℚ × String),
        e ∈ Thread2.query rows k true true d now →
        ∃ r ∈ rows, e = (r.cid, Thread2.scoreRow true d now r, r.text)) := by
  refine ⟨?_, ?_, ?_⟩
  · intro r w c ca hw hw0 hc hca hca0 hd
    unfold Thread2.scoreRow
    rw [hw, hc, hca]
    simp only [if_pos rfl]
    have hbe : (w == 0) = false := by simpa using hw0
    have hdd : decide (0 < d) = true := by simpa using hd
    have hct : Thread2.pyTruthyIntOpt (some ca) = true := by
      simp [Thread2.pyTruthyIntOpt, hca0]
    simp only [hbe, Bool.false_eq_true, if_false, hdd, hct, Bool.and_self, if_pos,
      Thread2.pyOrZeroInt, Option.getD_some]
    ring_nf
  · intro r c hw hc hca
    unfold Thread2.scoreRow
    rw [hw, hc, hca]
    simp only [Thread2.pyTruthyIntOpt, Thread2.pyOrZeroInt, beq_self_eq_true, if_true,
      Bool.and_false, Bool.false_eq_true, if_false, eq_self_iff_true]
    ring
  · intro rows k e he
    unfold Thread2.query at he
    have h1 := List.mem_of_mem_take he
    rw [mem_sortByRelevanceDesc] at h1
    clear he
    induction rows with
    | nil => simp at h1
    | cons r rs ih =>
      rw [List.foldr_cons] at h1
      by_cases hskip : (true && (r.appetite == some "pending_attestation")) = true
      · rw [if_pos hskip] at h1
        obtain ⟨r2, hr2, he2⟩ := ih h1
        exact ⟨r2, List.mem_cons_of_mem _ hr2, he2⟩
      · rw [if_neg hskip] at h1
        rcases List.mem_cons.mp h1 with h | h
        · exact ⟨r, List.mem_cons_self _ _, h⟩
        · obtain ⟨r2, hr2, he2⟩ := ih h
          exact ⟨r2, List.mem_cons_of_mem _ hr2, he2⟩

/-- C8 witness: the amended formula evaluated on a concrete row one hour
old with weight 1/2, chain depth 2 and decay 1/100. -/
theorem query_trust_weighted_relevance_witness :
    Thread2.scoreRow true (1/100) 7200000
      ⟨"rw", 1/3, "t", none, some (1/2), some 2, some 3600000⟩ =
      (⟨"rw", 1/3, "t", none, some (1/2), some 2, some 3600000⟩ :
        Thread2.IndexRow).similarity * (1/2) * (1 / (1 + (1/10) * ((2 : Int) : ℚ))) *
        Thread2.pyMax (1/2) (1 - (1/100) * ((((7200000 - 3600000 : Int)) : ℚ) / 3600000)) :=
  (query_trust_weighted_relevance (1/100) 7200000).1
    ⟨"rw", 1/3, "t", none, some (1/2), some 2, some 3600000⟩ (1/2) 2 3600000
    rfl (by norm_num) rfl rfl (by norm_num) (by norm_num)

/-! ## C1 / C2 — what the CID covers and what the signature signs

The two cited constructors disagree.  SignedThought.sign
(wellspring_node.py 101-117) signs the canonical sign_data bytes and THEN
computes the CID over sign_data plus the signature — the CID covers the
signature, the signature does not cover the CID.  thread-3's create_thought
(core.py 138-177) computes the CID from the signable fields WITHOUT the
signature and then signs the CID string — the signature covers the CID, the
CID does not cover the signature.  C1 as stated fails on thread-3; C2 as
stated fails on wellspring_node. -/

/-- Extensionality of strings via their character data. -/
theorem string_data_inj {s t : String} (h : s.data = t.data) : s = t := by
  cases s; cases t; exact congrArg String.mk h

/-- A thought with concrete fields for running the signature protocol. -/
def c2base : SignedThought :=
  { type := "basic", content := Json.mkObj [], created_by := "x",
    because := [], visibility := none, created_at := "t1",
    signature := none, cid := none }

/-- c2base signed with the test scheme, as SignedThought.sign does. -/
def c2signed : SignedThought := SignedThought.sign testScheme "sk" c2base

/-- C2 counterexample: for a SignedThought produced by sign, the stored
signature is NOT a valid signature of the thought's CID bytes (the claim's
predicate is false), while the node's own _verify_signature accepts the
thought — because the signed message is the canonical sign_data, not the
CID, which does not even exist at signing time. -/
theorem signature_not_over_cid_for_signedthought :
    testScheme.verify (testScheme.pkOf "sk") (c2signed.cid.getD "")
      (c2signed.signature.getD "") = false ∧
    verifySignatureNode testScheme [("x", testScheme.pkOf "sk")] c2signed = true := by
  decide

/-- C2 amended: in thread-3, verify_signature is exactly the Ed25519 check
of the stored signature against the CID bytes under the tag-stripped key,
and a thought built by create_thought from a create_identity identity
verifies under that identity's published key (scheme correctness assumed,
key free of the literal tag); in wellspring_node, by contrast, the
signature is over the canonical sign_data bytes and _verify_signature
checks THAT message, not the CID. -/
theorem verify_checks_cid_in_thread3_but_sign_data_in_node :
    (∀ (sch : SigScheme) (t : Thread3.Thought) (pubkey : String),
      Thread3.verify_signature sch t pubkey =
        sch.verify (String.mk (Thread3.removeTag pubkey.data)) t.cid t.signature) ∧
    (∀ (sch : SigScheme), sch.Correct →
      ∀ (content : Json) (ty name k : String) (ca : Int) (bec : List String)
        (vis src : Option String) (th : Thread3.Thought),
        Thread3.removeTag (sch.pkOf k).data = (sch.pkOf k).data →
        Thread3.create_thought sch content ty (Thread3.create_identity sch name k)
          bec vis src ca = some th →
        Thread3.verify_signature sch th (Thread3.create_identity sch name k).pubkey = true) ∧
    (∀ (sch : SigScheme) (sk : String) (t : SignedThought),
      (SignedThought.sign sch sk t).signature = some (sch.sign sk t.signMessage)) ∧
    (∀ (sch : SigScheme) (pubkeys : List (String × String)) (u : SignedThought)
        (pk sg : String),
      (u.type == "identity" && u.created_by == "GENESIS") = false →
      lookupAssoc pubkeys u.created_by = some pk →
      u.signature = some sg →
      verifySignatureNode sch pubkeys u = sch.verify pk u.signMessage sg) := by
  refine ⟨fun _ _ _ => rfl, ?_, fun _ _ _ => rfl, ?_⟩
  · intro sch hc content ty name k ca bec vis src th hclean hsome
    unfold Thread3.create_thought at hsome
    simp only [Thread3.create_identity, Option.some.injEq] at hsome
    subst hsome
    unfold Thread3.verify_signature
    show sch.verify (String.mk (Thread3.removeTag (("ed25519:" ++ sch.pkOf k)).data)) _ _ = true
    have hstrip : Thread3.removeTag (("ed25519:" ++ sch.pkOf k)).data = (sch.pkOf k).data := by
      show Thread3.removeTag ('e' :: 'd' :: '2' :: '5' :: '5' :: '1' :: '9' :: ':' ::
        (sch.pkOf k).data) = (sch.pkOf k).data
      rw [Thread3.removeTag]
      exact hclean
    rw [hstrip]
    have : String.mk (sch.pkOf k).data = sch.pkOf k := string_data_inj rfl
    rw [this]
    exact hc k _
  · intro sch pubkeys u pk sg hng hpk hsig
    unfold verifySignatureNode
    rw [hng, hpk, hsig]
    simp

/-- C2 witness: a concrete thread-3 thought made by create_thought from a
create_identity identity verifies against the identity's published key. -/
theorem verify_checks_cid_in_thread3_witness :
    Thread3.verify_signature testScheme
      ((Thread3.create_thought testScheme (.str "hi") "basic"
          (Thread3.create_identity testScheme "n" "k") [] none none 5).getD
        ⟨"", "", .null, "", 0, [], "", none, none⟩)
      (Thread3.create_identity testScheme "n" "k").pubkey = true :=
  verify_checks_cid_in_thread3_but_sign_data_in_node.2.1 testScheme testScheme_correct
    (.str "hi") "basic" "n" "k" 5 [] none none _ (by rfl) (by rfl)

/-- Two thread-3 identities equal except for their private keys. -/
def t3idA : Thread3.Identity := ⟨"n", "ed25519:p", "idcid", some "k1"⟩

/-- Same identity record as t3idA but holding a different private key. -/
def t3idB : Thread3.Identity := ⟨"n", "ed25519:p", "idcid", some "k2"⟩

/-- The thought t3idA's key produces. -/
def c1t1 : Thread3.Thought :=
  (Thread3.create_thought testScheme (.str "hi") "basic" t3idA [] none none 5).getD
    ⟨"", "", .null, "", 0, [], "", none, none⟩

/-- The thought t3idB's key produces: same fields, different signature. -/
def c1t2 : Thread3.Thought :=
  (Thread3.create_thought testScheme (.str "hi") "basic" t3idB [] none none 5).getD
    ⟨"", "", .null, "", 0, [], "", none, none⟩

/-- C1 counterexample: two thoughts produced by thread-3's create_thought
that agree on every field except the signature and still carry the SAME
cid — the cid is not computed from the fields-with-signature, and changing
the signature does not change the cid. -/
theorem thread3_cid_ignores_signature :
    c1t1.signature ≠ c1t2.signature ∧
    c1t1.cid = c1t2.cid ∧
    c1t1.type = c1t2.type ∧ c1t1.content = c1t2.content ∧
    c1t1.created_by = c1t2.created_by ∧ c1t1.created_at = c1t2.created_at ∧
    c1t1.because = c1t2.because ∧ c1t1.visibility = c1t2.visibility ∧
    c1t1.source = c1t2.source := by
  refine ⟨?_, rfl, rfl, rfl, rfl, rfl, rfl, rfl, rfl⟩
  intro h
  have hd := congrArg String.data h
  simp only [Option.map] at hd
  have : ('k' :: '1' :: ':' ::
      (Thread3.compute_cid (Thread3.signable "basic" (.str "hi") "idcid" 5 [] none none)).data) =
      ('k' :: '2' :: ':' ::
      (Thread3.compute_cid (Thread3.signable "basic" (.str "hi") "idcid" 5 [] none none)).data) := hd
  simp at this

/-- C1 amended: for SignedThought.sign the stored cid IS compute_cid of
sign_data plus the signature field (so the canonical bytes hashed into the
cid include the signature, which must exist first); distinct signature
strings yield distinct sign_data objects for every thought (and distinct
canonical bytes, checked on concrete signatures); for thread-3's
create_thought, the cid is compute_cid of the signable fields only,
computed before signing, so the signature is not covered. -/
theorem cid_covers_signature_in_node_not_in_thread3 :
    (∀ (sch : SigScheme) (sk : String) (t : SignedThought),
      (SignedThought.sign sch sk t).cid =
        some (compute_cid (Json.mkObj (t.signFields ++
          [("signature", Json.str (sch.sign sk t.signMessage))])))) ∧
    (Json.dumps (Json.mkObj (c2base.signFields ++ [("signature", Json.str "aa")])) ≠
      Json.dumps (Json.mkObj (c2base.signFields ++ [("signature", Json.str "bb")]))) ∧
    (∀ (t : SignedThought) (s1 s2 : String), s1 ≠ s2 →
      Json.mkObj (t.signFields ++ [("signature", Json.str s1)]) ≠
        Json.mkObj (t.signFields ++ [("signature", Json.str s2)])) ∧
    (∀ (sch : SigScheme) (content : Json) (ty : String) (idn : Thread3.Identity)
        (bec : List String) (vis src : Option String) (ca : Int) (k : String),
      idn.privkey = some k →
      Thread3.create_thought sch content ty idn bec vis src ca =
        some { cid := Thread3.compute_cid (Thread3.signable ty content idn.cid ca bec vis src),
               type := ty, content := content, created_by := idn.cid, created_at := ca,
               because := bec,
               signature := sch.sign k
                 (Thread3.compute_cid (Thread3.signable ty content idn.cid ca bec vis src)),
               visibility := vis, source := src }) := by
  refine ⟨fun _ _ _ => rfl, by decide, ?_, ?_⟩
  · intro t s1 s2 hne h
    apply hne
    have hl := congrArg (fun j => Json.get j "signature") h
    by_cases hv : pyTruthyStr t.visibility = true <;>
      simp only [SignedThought.signFields, hv, Bool.false_eq_true, if_true, if_false,
        Json.mkObj, JsonFields.ofList, Json.get, JsonFields.lookup, List.cons_append,
        List.nil_append] at hl <;>
      · simp only [show (("type" : String) == "signature") = false from rfl,
          show (("content" : String) == "signature") = false from rfl,
          show (("created_by" : String) == "signature") = false from rfl,
          show (("because" : String) == "signature") = false from rfl,
          show (("created_at" : String) == "signature") = false from rfl,
          show (("visibility" : String) == "signature") = false from rfl,
          show (("signature" : String) == "signature") = true from rfl,
          Bool.false_eq_true, if_false, if_true, Option.some.injEq, Json.str.injEq] at hl
        exact hl
  · intro sch content ty idn bec vis src ca k hk
    unfold Thread3.create_thought
    rw [hk]

/-- C1 witness: the amended object-level injectivity at two concrete
signatures, and the thread-3 clause at a concrete identity, via the theorem
itself. -/
theorem cid_covers_signature_witness :
    (Json.mkObj (c2base.signFields ++ [("signature", Json.str "s1")]) ≠
      Json.mkObj (c2base.signFields ++ [("signature", Json.str "s2")])) ∧
    Thread3.create_thought testScheme (.str "hi") "basic" t3idA [] none none 5 =
      some { cid := Thread3.compute_cid (Thread3.signable "basic" (.str "hi") "idcid" 5 [] none none),
             type := "basic", content := .str "hi", created_by := "idcid", created_at := 5,
             because := [],
             signature := testScheme.sign "k1"
               (Thread3.compute_cid (Thread3.signable "basic" (.str "hi") "idcid" 5 [] none none)),
             visibility := none, source := none } :=
  ⟨cid_covers_signature_in_node_not_in_thread3.2.2.1 c2base "s1" "s2" (by decide),
   cid_covers_signature_in_node_not_in_thread3.2.2.2 testScheme (.str "hi") "basic"
     t3idA [] none none 5 "k1" (by rfl)⟩

/-! ## C3 — local_forever and sync selection

WellspringNodeV2.get_missing_for_peer filters every candidate (and every
prepended identity) through _can_share_with_peer, which always withholds
local_forever — proved below for every store, bloom and peer.  But the
claim also cites WellspringNode.get_missing_for_peer (V1, wellspring_node.py
250-284), which applies NO visibility filter: a stored local_forever
thought the peer's bloom lacks is put on the wire. -/

/-- The hex form of a fresh (all-zero) 1024-bit bloom filter, as an empty
peer would send it. -/
def zeroBloomHex : String := (BloomFilter.empty 1024 3).to_hex

/-- A local_forever thought sitting in a V1 store. -/
def tLF : SignedThought :=
  { type := "connection", content := Json.mkObj [], created_by := "GENESIS",
    because := [], visibility := some "local_forever", created_at := "t0",
    signature := some "s", cid := some "lf1" }

/-- A V1 node holding only the local_forever thought. -/
def stV1lf : NodeStateV1 :=
  ⟨[("lf1", tLF)], [], BloomFilter.empty 1024 3, 0, 0, 0, 0⟩

set_option maxRecDepth 40000 in
/-- C3 counterexample: V1's sync selection returns the local_forever
thought to a fresh peer — a store contents and bloom filter under which the
claimed never-included property fails. -/
theorem v1_sync_selection_leaks_local_forever :
    NodeStateV1.get_missing_for_peer stV1lf zeroBloomHex = [tLF] ∧
    tLF.visibility = some "local_forever" :=
  ⟨rfl, rfl⟩

/-- A thought the V2 visibility filter lets through is not local_forever. -/
theorem can_share_local_forever_false (st : NodeStateV2) (pc : String)
    (t : SignedThought) (h : t.visibility = some "local_forever") :
    (st.can_share_with_peer t pc).1 = false := by
  unfold NodeStateV2.can_share_with_peer
  rw [h]
  rfl

/-- Invariant of the visibility-filter pass: every collected cid points at
a stored thought the filter accepted. -/
theorem pass2_inv (st : NodeStateV2) (pc : String) (l : List String) :
    ∀ (acc : List String × SyncStats × Nat),
      (∀ c ∈ acc.1, ∃ t, lookupAssoc st.thoughts c = some t ∧
        (st.can_share_with_peer t pc).1 = true) →
      ∀ c ∈ (l.foldl
        (fun (acc : List String × SyncStats × Nat) cid =>
          match lookupAssoc st.thoughts cid with
          | some t =>
            let cs := st.can_share_with_peer t pc
            if cs.1 then (acc.1 ++ [cid], acc.2.1, acc.2.2)
            else (acc.1, classifyFiltered acc.2.1 cs.2, acc.2.2 + 1)
          | none => acc) acc).1,
        ∃ t, lookupAssoc st.thoughts c = some t ∧
          (st.can_share_with_peer t pc).1 = true := by
  induction l with
  | nil => intro acc hacc c hc; exact hacc c hc
  | cons hd tl ih =>
    intro acc hacc c hc
    rw [List.foldl_cons] at hc
    refine ih _ ?_ c hc
    cases hl : lookupAssoc st.thoughts hd with
    | none => simpa [hl] using hacc
    | some t =>
      by_cases hcs : (st.can_share_with_peer t pc).1 = true
      · simp only [hl, hcs, if_true]
        intro c2 hc2
        rcases List.mem_append.mp hc2 with h | h
        · exact hacc c2 h
        · rcases List.mem_singleton.mp h with rfl
          exact ⟨t, hl, hcs⟩
      · simp only [hl, Bool.not_eq_true] at hcs ⊢
        simpa [hcs] using hacc

/-- Membership in an addUnique accumulation comes from the accumulator or
the added element. -/
theorem mem_addUnique (l : List String) (x c : String) (h : c ∈ addUnique l x) :
    c ∈ l ∨ c = x := by
  unfold addUnique at h
  by_cases hx : l.contains x
  · rw [if_pos hx] at h; exact Or.inl h
  · rw [if_neg hx] at h
    rcases List.mem_append.mp h with h | h
    · exact Or.inl h
    · exact Or.inr (List.mem_singleton.mp h)

/-- Invariant of the identity-dependency pass: every collected cid points
at a stored thought the filter accepted. -/
theorem needed_inv (st : NodeStateV2) (pc : String) (pb : BloomFilter)
    (l : List String) :
    ∀ (acc : List String),
      (∀ c ∈ acc, ∃ t, lookupAssoc st.thoughts c = some t ∧
        (st.can_share_with_peer t pc).1 = true) →
      ∀ c ∈ (l.foldl
        (fun acc cid =>
          match lookupAssoc st.thoughts cid with
          | some t =>
            if t.created_by != "GENESIS" && dictContains st.thoughts t.created_by
                && !pb.maybe_contains t.created_by then
              match lookupAssoc st.thoughts t.created_by with
              | some idT =>
                if (st.can_share_with_peer idT pc).1 then addUnique acc t.created_by
                else acc
              | none => acc
            else acc
          | none => acc) acc),
        ∃ t, lookupAssoc st.thoughts c = some t ∧
          (st.can_share_with_peer t pc).1 = true := by
  induction l with
  | nil => intro acc hacc c hc; exact hacc c hc
  | cons hd tl ih =>
    intro acc hacc c hc
    rw [List.foldl_cons] at hc
    refine ih _ ?_ c hc
    cases hl : lookupAssoc st.thoughts hd with
    | none => simpa [hl] using hacc
    | some t =>
      simp only [hl]
      by_cases hguard : (t.created_by != "GENESIS" && dictContains st.thoughts t.created_by
          && !pb.maybe_contains t.created_by) = true
      · simp only [hguard, if_true]
        cases hid : lookupAssoc st.thoughts t.created_by with
        | none => exact hacc
        | some idT =>
          by_cases hcs : (st.can_share_with_peer idT pc).1 = true
          · simp only [hcs, if_true]
            intro c2 hc2
            rcases mem_addUnique _ _ _ hc2 with h | rfl
            · exact hacc c2 h
            · exact ⟨idT, hid, hcs⟩
          · simp only [Bool.not_eq_true] at hcs
            simpa [hcs] using hacc
      · simp only [Bool.not_eq_true] at hguard
        simpa [hguard] using hacc

/-- C3 amended: V2's visibility-aware sync selection never includes a
local_forever thought, under any store contents, any received bloom filter
and any peer; V1's selection (the counterexample above) performs no
visibility filtering at all, and re-ordering to an amended claim means
restricting the never-included guarantee to the visibility-aware
WellspringNodeV2 path. -/
theorem v2_sync_selection_never_sends_local_forever
    (st : NodeStateV2) (peer_bloom_hex peer_cid : String) :
    ((st.get_missing_for_peer peer_bloom_hex peer_cid).1).all
      (fun t => !(t.visibility == some "local_forever")) = true := by
  rw [List.all_eq_true]
  intro t ht
  unfold NodeStateV2.get_missing_for_peer at ht
  simp only [List.mem_append] at ht
  have hshare : (st.can_share_with_peer t peer_cid).1 = true := by
    rcases ht with h | h
    · obtain ⟨c, hc, hl⟩ := List.mem_filterMap.mp h
      have hc2 := List.mem_of_mem_filter hc
      obtain ⟨t2, hl2, hcs⟩ := needed_inv st peer_cid _ _ [] (by simp) c hc2
      rw [hl] at hl2
      cases hl2
      exact hcs
    · obtain ⟨c, hc, hl⟩ := List.mem_filterMap.mp h
      obtain ⟨t2, hl2, hcs⟩ := pass2_inv st peer_cid _ _ (by simp) c hc
      rw [hl] at hl2
      cases hl2
      exact hcs
  by_contra hb
  have hb2 : (t.visibility == some "local_forever") = true := by
    cases hv : t.visibility == some "local_forever"
    · exact absurd (by rw [hv]; rfl) hb
    · rfl
  simp only [beq_iff_eq] at hb2
  rw [can_share_local_forever_false st peer_cid t hb2] at hshare
  exact Bool.false_ne_true hshare

/-! ## C5 — ordering of the sync stream

V2's get_missing_for_peer prepends needed creator identities, but an
identity that is ITSELF among the bloom-missing shareable thoughts is not
prepended (the "don't double-add" filter) and appears wherever store/set
iteration puts it — possibly AFTER thoughts it signs; and the shareable
segment is never sorted by created_at.  The identities-first,
created_at-sorted order the claim describes is established by the RECEIVER
(receive_thoughts' sorted(...)), not by the sender's selection. -/

/-- Strict character-list order is asymmetric. -/
theorem charListLt_asymm : ∀ a b, charListLt a b = true → charListLt b a = false := by
  intro a
  induction a with
  | nil =>
    intro b h
    cases b with
    | nil => simp [charListLt] at h
    | cons c2 r2 => simp [charListLt]
  | cons c1 r1 ih =>
    intro b h
    cases b with
    | nil => simp [charListLt] at h
    | cons c2 r2 =>
      unfold charListLt at h ⊢
      by_cases h1 : c1.toNat < c2.toNat
      · rw [if_neg (by omega), if_pos h1]
      · rw [if_neg h1] at h
        by_cases h2 : c2.toNat < c1.toNat
        · rw [if_pos h2] at h
          exact absurd h (by simp)
        · rw [if_neg h2] at h
          rw [if_neg h2, if_neg h1]
          exact ih r2 h

/-- Strict character-list order is transitive. -/
theorem charListLt_trans : ∀ a b c, charListLt a b = true → charListLt b c = true →
    charListLt a c = true := by
  intro a
  induction a with
  | nil =>
    intro b c hab hbc
    cases c with
    | nil =>
      cases b with
      | nil => exact hab
      | cons cb rb => simp [charListLt] at hbc
    | cons cc rc => simp [charListLt]
  | cons ca ra ih =>
    intro b c hab hbc
    cases b with
    | nil => simp [charListLt] at hab
    | cons cb rb =>
      cases c with
      | nil => simp [charListLt] at hbc
      | cons cc rc =>
        unfold charListLt at hab hbc ⊢
        by_cases h1 : ca.toNat < cb.toNat
        · by_cases h2 : cb.toNat < cc.toNat
          · rw [if_pos (by omega)]
          · rw [if_neg h2] at hbc
            by_cases h3 : cc.toNat < cb.toNat
            · rw [if_pos h3] at hbc
              exact absurd hbc (by simp)
            · have : cb.toNat = cc.toNat := by omega
              rw [if_pos (by omega)]
        · rw [if_neg h1] at hab
          by_cases h2 : cb.toNat < ca.toNat
          · rw [if_pos h2] at hab
            exact absurd hab (by simp)
          · rw [if_neg h2] at hab
            have hca : ca.toNat = cb.toNat := by omega
            by_cases h3 : cb.toNat < cc.toNat
            · rw [if_pos (by omega)]
            · rw [if_neg h3] at hbc
              by_cases h4 : cc.toNat < cb.toNat
              · rw [if_pos h4] at hbc
                exact absurd hbc (by simp)
              · rw [if_neg h4] at hbc
                rw [if_neg (by omega), if_neg (by omega)]
                exact ih rb rc hab hbc

/-- Characters are equal when neither code point is smaller. -/
theorem char_eq_of_not_lt {c1 c2 : Char} (h1 : ¬ c1.toNat < c2.toNat)
    (h2 : ¬ c2.toNat < c1.toNat) : c1 = c2 :=
  have hv : c1.toNat = c2.toNat := by omega
  Char.eq_of_val_eq (congrArg UInt32.mk (BitVec.eq_of_toNat_eq hv))

/-- Unrelated character lists are equal. -/
theorem charListLt_conn : ∀ a b, charListLt a b = false → charListLt b a = false →
    a = b := by
  intro a
  induction a with
  | nil =>
    intro b hab _
    cases b with
    | nil => rfl
    | cons cb rb => simp [charListLt] at hab
  | cons ca ra ih =>
    intro b hab hba
    cases b with
    | nil => simp [charListLt] at hba
    | cons cb rb =>
      unfold charListLt at hab hba
      by_cases h1 : ca.toNat < cb.toNat
      · rw [if_pos h1] at hab
        exact absurd hab (by simp)
      · by_cases h2 : cb.toNat < ca.toNat
        · rw [if_pos h2] at hba
          exact absurd hba (by simp)
        · rw [if_neg h1, if_neg h2] at hab
          rw [if_neg h2, if_neg h1] at hba
          rw [char_eq_of_not_lt h1 h2, ih rb hab hba]

/-- The receive-key order is asymmetric. -/
theorem receiveKeyLt_asymm (a b : Nat × String) (h : receiveKeyLt a b = true) :
    receiveKeyLt b a = false := by
  unfold receiveKeyLt at h ⊢
  rw [Bool.or_eq_true] at h
  rcases h with h | h
  · have h1 : a.1 < b.1 := of_decide_eq_true h
    have e1 : decide (b.1 < a.1) = false := decide_eq_false (by omega)
    have e2 : (b.1 == a.1) = false := by simp; omega
    simp [e1, e2]
  · rw [Bool.and_eq_true] at h
    obtain ⟨h1, h2⟩ := h
    have he : a.1 = b.1 := by simpa using h1
    have e1 : decide (b.1 < a.1) = false := decide_eq_false (by omega)
    have hs : strLt b.2 a.2 = false := charListLt_asymm _ _ h2
    simp [e1, hs]

/-- The receive-key order is transitive. -/
theorem receiveKeyLt_trans (a b c : Nat × String) (hab : receiveKeyLt a b = true)
    (hbc : receiveKeyLt b c = true) : receiveKeyLt a c = true := by
  unfold receiveKeyLt at hab hbc ⊢
  rw [Bool.or_eq_true] at hab hbc ⊢
  rcases hab with h1 | h1 <;> rcases hbc with h2 | h2
  · have := of_decide_eq_true h1
    have := of_decide_eq_true h2
    exact Or.inl (decide_eq_true (by omega))
  · rw [Bool.and_eq_true] at h2
    obtain ⟨h2a, _⟩ := h2
    have := of_decide_eq_true h1
    have : b.1 = c.1 := by simpa using h2a
    exact Or.inl (decide_eq_true (by omega))
  · rw [Bool.and_eq_true] at h1
    obtain ⟨h1a, _⟩ := h1
    have := of_decide_eq_true h2
    have : a.1 = b.1 := by simpa using h1a
    exact Or.inl (decide_eq_true (by omega))
  · rw [Bool.and_eq_true] at h1 h2
    obtain ⟨h1a, h1b⟩ := h1
    obtain ⟨h2a, h2b⟩ := h2
    have e1 : a.1 = b.1 := by simpa using h1a
    have e2 : b.1 = c.1 := by simpa using h2a
    refine Or.inr ?_
    rw [Bool.and_eq_true]
    exact ⟨by simp [e1, e2], charListLt_trans _ _ _ h1b h2b⟩

/-- Unrelated receive keys are equal. -/
theorem receiveKeyLt_conn (a b : Nat × String) (h1 : receiveKeyLt a b = false)
    (h2 : receiveKeyLt b a = false) : a = b := by
  unfold receiveKeyLt at h1 h2
  rcases Bool.or_eq_false_iff.mp h1 with ⟨h1a, h1b⟩
  rcases Bool.or_eq_false_iff.mp h2 with ⟨h2a, h2b⟩
  have n1 : ¬ a.1 < b.1 := of_decide_eq_false h1a
  have n2 : ¬ b.1 < a.1 := of_decide_eq_false h2a
  have he : a.1 = b.1 := by omega
  have hb1 : (a.1 == b.1) = true := by simpa using he
  have hb2 : (b.1 == a.1) = true := by simpa using he.symm
  rw [hb1, Bool.true_and] at h1b
  rw [hb2, Bool.true_and] at h2b
  have hs : a.2 = b.2 := string_data_inj (charListLt_conn _ _ h1b h2b)
  exact Prod.ext he hs

/-- Membership through the stable receive-key insertion. -/
theorem mem_insertByReceiveKey (z x : SignedThought) (l : List SignedThought) :
    z ∈ insertByReceiveKey x l ↔ z = x ∨ z ∈ l := by
  induction l with
  | nil => simp [insertByReceiveKey]
  | cons y ys ih =>
    unfold insertByReceiveKey
    split <;> simp only [List.mem_cons, ih] <;> tauto

/-- The receiver's stable insertion permutes its input. -/
theorem perm_insertByReceiveKey (x : SignedThought) (l : List SignedThought) :
    (insertByReceiveKey x l).Perm (x :: l) := by
  induction l with
  | nil => exact List.Perm.refl _
  | cons y ys ih =>
    unfold insertByReceiveKey
    by_cases h : receiveKeyLt (receiveKey y) (receiveKey x) = true
    · rw [if_pos h]
      exact (ih.cons y).trans (List.Perm.swap x y ys)
    · rw [if_neg h]

/-- The order established between stream elements by the receiver's sort:
a is at most b when b's key is not below a's. -/
def streamLe (a b : SignedThought) : Prop :=
  receiveKeyLt (receiveKey b) (receiveKey a) = false

/-- Inserting preserves sortedness under streamLe. -/
theorem pairwise_insertByReceiveKey (x : SignedThought) (l : List SignedThought)
    (h : l.Pairwise streamLe) : (insertByReceiveKey x l).Pairwise streamLe := by
  induction l with
  | nil => simp [insertByReceiveKey]
  | cons y ys ih =>
    rcases List.pairwise_cons.mp h with ⟨hy, hys⟩
    unfold insertByReceiveKey
    by_cases hlt : receiveKeyLt (receiveKey y) (receiveKey x) = true
    · rw [if_pos hlt, List.pairwise_cons]
      refine ⟨?_, ih hys⟩
      intro z hz
      rcases (mem_insertByReceiveKey z x ys).mp hz with rfl | hzys
      · exact receiveKeyLt_asymm _ _ hlt
      · exact hy z hzys
    · rw [if_neg hlt, List.pairwise_cons]
      have hlt' : receiveKeyLt (receiveKey y) (receiveKey x) = false := by
        simpa using hlt
      refine ⟨?_, h⟩
      intro z hz
      rcases List.mem_cons.mp hz with rfl | hzys
      · exact hlt'
      · show receiveKeyLt (receiveKey z) (receiveKey x) = false
        by_contra hzx
        have hzx' : receiveKeyLt (receiveKey z) (receiveKey x) = true := by
          simpa using hzx
        have hzy : receiveKeyLt (receiveKey z) (receiveKey y) = false := hy z hzys
        cases hyz : receiveKeyLt (receiveKey y) (receiveKey z) with
        | true =>
          have ht := receiveKeyLt_trans _ _ _ hyz hzx'
          rw [ht] at hlt'
          exact Bool.noConfusion hlt'
        | false =>
          have hk := receiveKeyLt_conn _ _ hzy hyz
          rw [hk] at hzx'
          rw [hzx'] at hlt'
          exact Bool.noConfusion hlt'

/-- The receiver's sorted() output is sorted under streamLe: identities
before non-identities, created_at ascending within each class. -/
theorem receiveSorted_pairwise (l : List SignedThought) :
    (receiveSorted l).Pairwise streamLe := by
  induction l with
  | nil => simp [receiveSorted]
  | cons x xs ih =>
    unfold receiveSorted at ih ⊢
    rw [List.foldr_cons]
    exact pairwise_insertByReceiveKey x _ ih

/-- The receiver's sorted() output is a permutation of the batch. -/
theorem receiveSorted_perm (l : List SignedThought) : (receiveSorted l).Perm l := by
  induction l with
  | nil => exact List.Perm.refl _
  | cons x xs ih =>
    unfold receiveSorted at ih ⊢
    rw [List.foldr_cons]
    exact (perm_insertByReceiveKey x _).trans (ih.cons x)

/-- Provenance invariant of the identity-dependency pass: every collected
cid is the non-GENESIS creator of a thought stored under some cid of the
scanned list. -/
theorem needed_inv2 (st : NodeStateV2) (pc : String) (pb : BloomFilter)
    (S : List String) :
    ∀ (l : List String), (∀ x ∈ l, x ∈ S) →
    ∀ (acc : List String),
      (∀ c ∈ acc, ∃ hd, hd ∈ S ∧ ∃ u, lookupAssoc st.thoughts hd = some u ∧
        u.created_by = c ∧ (u.created_by != "GENESIS") = true) →
      ∀ c ∈ (l.foldl
        (fun acc cid =>
          match lookupAssoc st.thoughts cid with
          | some t =>
            if t.created_by != "GENESIS" && dictContains st.thoughts t.created_by
                && !pb.maybe_contains t.created_by then
              match lookupAssoc st.thoughts t.created_by with
              | some idT =>
                if (st.can_share_with_peer idT pc).1 then addUnique acc t.created_by
                else acc
              | none => acc
            else acc
          | none => acc) acc),
        ∃ hd, hd ∈ S ∧ ∃ u, lookupAssoc st.thoughts hd = some u ∧
          u.created_by = c ∧ (u.created_by != "GENESIS") = true := by
  intro l
  induction l with
  | nil => intro _ acc hacc c hc; exact hacc c hc
  | cons hd tl ih =>
    intro hsub acc hacc c hc
    rw [List.foldl_cons] at hc
    refine ih (fun x hx => hsub x (List.mem_cons_of_mem _ hx)) _ ?_ c hc
    cases hl : lookupAssoc st.thoughts hd with
    | none => simpa [hl] using hacc
    | some t =>
      simp only [hl]
      by_cases hguard : (t.created_by != "GENESIS" && dictContains st.thoughts t.created_by
          && !pb.maybe_contains t.created_by) = true
      · simp only [hguard, if_true]
        cases hid : lookupAssoc st.thoughts t.created_by with
        | none => exact hacc
        | some idT =>
          by_cases hcs : (st.can_share_with_peer idT pc).1 = true
          · simp only [hcs, if_true]
            intro c2 hc2
            rcases mem_addUnique _ _ _ hc2 with h | rfl
            · exact hacc c2 h
            · have hg1 : (t.created_by != "GENESIS") = true := by
                rw [Bool.and_eq_true, Bool.and_eq_true] at hguard
                exact hguard.1.1
              exact ⟨hd, hsub hd (List.mem_cons_self _ _), t, hl, rfl, hg1⟩
          · simp only [Bool.not_eq_true] at hcs
            simpa [hcs] using hacc
      · simp only [Bool.not_eq_true] at hguard
        simpa [hguard] using hacc

/-- C5 amended: V2's sender only guarantees that the PREPENDED identities
come first — its stream splits as pre ++ post where every element of pre
is the stored identity record of the non-GENESIS creator of some element
of post; an identity that is itself among the shareable missing thoughts
is not prepended and may follow the thoughts it signs, and post is not
sorted by created_at.  The identities-first, created_at order of the claim
is established at the RECEIVER, whose stable sorted() re-orders every
batch into streamLe order while permuting the batch. -/
theorem v2_stream_prepends_identities_receiver_sorts :
    (∀ (st : NodeStateV2) (bh pc : String), ∃ pre post,
      (st.get_missing_for_peer bh pc).1 = pre ++ post ∧
      (∀ t ∈ pre, ∃ u ∈ post, (u.created_by != "GENESIS") = true ∧
        lookupAssoc st.thoughts u.created_by = some t)) ∧
    (∀ l : List SignedThought,
      (receiveSorted l).Pairwise streamLe ∧ (receiveSorted l).Perm l) := by
  constructor
  · intro st bh pc
    refine ⟨_, _, rfl, ?_⟩
    intro t ht
    obtain ⟨c, hc, hl⟩ := List.mem_filterMap.mp ht
    have hc2 := List.mem_of_mem_filter hc
    obtain ⟨hd, hdS, u, hu, hucb, hug⟩ :=
      needed_inv2 st pc _ _ _ (fun x hx => hx) [] (by simp) c hc2
    refine ⟨u, List.mem_filterMap.mpr ⟨hd, hdS, hu⟩, hug, ?_⟩
    rw [hucb]
    exact hl
  · intro l
    exact ⟨receiveSorted_pairwise l, receiveSorted_perm l⟩

/-- A thought that depends on its creator's identity, created later. -/
def tDep : SignedThought :=
  { type := "note", content := Json.mkObj [], created_by := "icid",
    because := [], visibility := none, created_at := "2",
    signature := some "s", cid := some "tcid" }

/-- The creator's identity thought, created earlier. -/
def tIdn : SignedThought :=
  { type := "identity",
    content := Json.mkObj [("name", .str "A"), ("pubkey", .str "p")],
    created_by := "GENESIS", because := [], visibility := none,
    created_at := "1", signature := some "s2", cid := some "icid" }

/-- A V2 node that stored the dependent thought before the identity. -/
def stV2ord : NodeStateV2 :=
  ⟨[("tcid", tDep), ("icid", tIdn)], [], BloomFilter.empty 1024 3, [], [], [], 0⟩

set_option maxRecDepth 80000 in
/-- C5 counterexample: a stream produced by V2's sync selection in which
the creator's identity thought (itself among the bloom-missing shareable
thoughts, hence not prepended) comes AFTER the thought it signs, and the
later-created thought precedes the earlier-created one — neither the
identities-first rule nor the created_at order holds for the sender's
stream. -/
theorem v2_stream_identity_after_dependent :
    (stV2ord.get_missing_for_peer zeroBloomHex "p").1 = [tDep, tIdn] ∧
    tDep.created_by = "icid" ∧ tIdn.cid = some "icid" ∧
    tIdn.type = "identity" ∧ tDep.type ≠ "identity" ∧
    strLt tIdn.created_at tDep.created_at = true :=
  ⟨rfl, rfl, rfl, rfl, by decide, by decide⟩

/-- C5 witness: the amended statement at the concrete counterexample node
and at the concrete batch it emits. -/
theorem v2_stream_prepends_identities_receiver_sorts_witness :
    (∃ pre post,
      (stV2ord.get_missing_for_peer zeroBloomHex "p").1 = pre ++ post ∧
      (∀ t ∈ pre, ∃ u ∈ post, (u.created_by != "GENESIS") = true ∧
        lookupAssoc stV2ord.thoughts u.created_by = some t)) ∧
    ((receiveSorted [tDep, tIdn]).Pairwise streamLe ∧
      (receiveSorted [tDep, tIdn]).Perm [tDep, tIdn]) :=
  ⟨v2_stream_prepends_identities_receiver_sorts.1 stV2ord zeroBloomHex "p",
   v2_stream_prepends_identities_receiver_sorts.2 [tDep, tIdn]⟩

/-! ## C4 — the sender's share decision against the spec's visibility table

The code resolves the peer's display name as
known_peers.get(cid, \x7b\x7d).get("content", \x7b\x7d).get("name"), which
is Python None for an unknown peer (or one with no name); `None in
participants` is then True whenever content.participants contains JSON
null, so the code shares a participants_only thought with a peer that
appears in the table under neither its CID nor a display name. -/

/-- The spec's name clause: P's display name appears in
content.participants — a match only when the sender knows a string name
for the peer. -/
def specPeerNameMatch (st : NodeStateV2) (t : SignedThought) (pc : String) : Bool :=
  match codePeerName st pc with
  | .str n => (participantsOf t).holds (Json.str n)
  | _ => false

/-- The spec's visibility table (spec section 4.7), written from the
spec's words: null/"public" share, "local_forever" never, "pool:<cid>"
iff member or peering agreement, "participants_only" iff P's identity CID
or display name appears in content.participants, anything else withheld. -/
def specVisibilityShare (st : NodeStateV2) (t : SignedThought) (pc : String) : Bool :=
  match t.visibility with
  | none => true
  | some v =>
    if v == "public" then true
    else if v == "local_forever" then false
    else if strStartsWith v "pool:" then
      st.is_pool_member (String.mk (v.data.drop 5)) pc
        || (st.get_shared_pools pc).contains (String.mk (v.data.drop 5))
    else if v == "participants_only" then
      (participantsOf t).holds (Json.str pc) || specPeerNameMatch st t pc
    else false

/-- A spec-side name match implies the code's peer_name membership test. -/
theorem specPeerNameMatch_le (st : NodeStateV2) (t : SignedThought) (pc : String)
    (h : specPeerNameMatch st t pc = true) :
    (participantsOf t).holds (codePeerName st pc) = true := by
  unfold specPeerNameMatch at h
  cases hn : codePeerName st pc <;> rw [hn] at h <;>
    first
      | exact h
      | exact Bool.noConfusion h

/-- BEq on some-wrapped strings is BEq on the strings. -/
theorem option_some_beq (a b : String) : ((some a == some b : Bool)) = (a == b) := rfl

/-- A participants_only thought whose participants list contains JSON
null. -/
def tPart : SignedThought :=
  { type := "note",
    content := Json.mkObj [("participants", Json.mkArr [Json.null])],
    created_by := "GENESIS", because := [],
    visibility := some "participants_only", created_at := "1",
    signature := some "s", cid := some "pc1" }

/-- A V2 node that has no recorded identity for peer "px". -/
def stC4 : NodeStateV2 :=
  ⟨[("pc1", tPart)], [], BloomFilter.empty 1024 3, [], [], [], 0⟩

/-- C4 counterexample: for a participants_only thought whose participants
list contains null and a peer with no recorded identity, the code decides
to share although the peer appears in content.participants under neither
its CID nor a display name — the sender's decision differs from the
spec's visibility table. -/
theorem participants_only_shares_null_with_unknown_peer :
    (stC4.can_share_with_peer tPart "px").1 = true ∧
    specVisibilityShare stC4 tPart "px" = false ∧
    tPart.visibility = some "participants_only" ∧
    lookupAssoc stC4.known_peers "px" = none ∧
    (participantsOf tPart).holds Json.null = true :=
  ⟨rfl, rfl, rfl, rfl, rfl⟩

/-- C4 amended: the sender's share decision equals the spec's visibility
table in every row EXCEPT that, for participants_only, the code
additionally shares when the JSON value it resolves as the peer's name
(null for a peer with no recorded identity or name) is itself an element
of content.participants. -/
theorem can_share_matches_spec_table_up_to_null_edge (st : NodeStateV2)
    (t : SignedThought) (pc : String) :
    (st.can_share_with_peer t pc).1 =
      (specVisibilityShare st t pc ||
        ((t.visibility == some "participants_only") &&
          (participantsOf t).holds (codePeerName st pc))) := by
  unfold NodeStateV2.can_share_with_peer specVisibilityShare
  cases hv : t.visibility with
  | none => rfl
  | some v =>
    by_cases h1 : (v == "public") = true
    · have he : v = "public" := by simpa using h1
      subst he
      rfl
    · by_cases h2 : (v == "local_forever") = true
      · have he : v = "local_forever" := by simpa using h2
        subst he
        rfl
      · by_cases h3 : strStartsWith v "pool:" = true
        · have hne : (v == "participants_only") = false := by
            cases hb : v == "participants_only"
            · rfl
            · have he : v = "participants_only" := by simpa using hb
              subst he
              exact absurd h3 (by decide)
          by_cases hm : st.is_pool_member (String.mk (v.data.drop 5)) pc = true
          · simp [h1, h2, h3, hm, hne, option_some_beq]
          · by_cases hsp : (String.mk (v.data.drop 5)) ∈ st.get_shared_pools pc
            · simp [h1, h2, h3, hm, hsp, hne, option_some_beq]
            · simp [h1, h2, h3, hm, hsp, hne, option_some_beq]
        · by_cases h4 : (v == "participants_only") = true
          · have he : v = "participants_only" := by simpa using h4
            subst he
            cases hA : (participantsOf t).holds (Json.str pc) <;>
              cases hB : (participantsOf t).holds (codePeerName st pc)
            · have hspm : specPeerNameMatch st t pc = false := by
                cases hs : specPeerNameMatch st t pc
                · rfl
                · exact absurd (specPeerNameMatch_le st t pc hs) (by simp [hB])
              simp [h1, h2, h3, h4, hA, hB, hspm, option_some_beq]
            · simp [h1, h2, h3, h4, hA, hB, option_some_beq]
            · simp [h1, h2, h3, h4, hA, hB, option_some_beq]
            · simp [h1, h2, h3, h4, hA, hB, option_some_beq]
          · simp [h1, h2, h3, h4, option_some_beq]

/-- A base unsigned thought for the C6 witness. -/
def c6base : SignedThought :=
  { type := "basic", content := Json.mkObj [], created_by := "id1",
    because := [], visibility := none, created_at := "t0",
    signature := none, cid := none }

/-- c6base with the test-scheme signature over its canonical sign_data. -/
def c6ws : SignedThought :=
  { c6base with signature := some ("sk" ++ ":" ++ c6base.signMessage),
                cid := some "w1" }

/-- C6 witness: the amended statement at a concrete verifying input (a
thought signed by the test scheme, stored into a node that knows the
creator's key). -/
theorem put_put_same_table_one_log_line_per_call_witness :
    (Thread3.store_thought (Thread3.store_thought ⟨[], []⟩ t6thought) t6thought).table =
      (Thread3.store_thought ⟨[], []⟩ t6thought).table ∧
    (Thread3.store_thought ⟨[], []⟩ t6thought).jsonl =
      [Json.dumpsPy (Thread3.asdictJson t6thought)] ∧
    NodeStateV1.store testScheme
      (NodeStateV1.store testScheme
        ⟨[], [("id1", "sk")], BloomFilter.empty 1024 3, 0, 0, 0, 0⟩ c6ws).1 c6ws =
      ((NodeStateV1.store testScheme
        ⟨[], [("id1", "sk")], BloomFilter.empty 1024 3, 0, 0, 0, 0⟩ c6ws).1, false) :=
  put_put_same_table_one_log_line_per_call ⟨[], []⟩ t6thought testScheme
    ⟨[], [("id1", "sk")], BloomFilter.empty 1024 3, 0, 0, 0, 0⟩ c6ws (by decide)

/-! ## C9 — edge monotonicity of BFS trust

trust_network's BFS marks nodes visited at ENQUEUE time: a newly added
positive edge can claim a node early with a small accumulated trust and
block a better path, and a pair of negative edges multiplies to a
positive score, so neither direction of the claim holds as stated. -/

/-- A chain A -> B -> C -> T with unit weights. -/
def g9a : TrustNet.TrustGraph :=
  ⟨[("A", [("B", 1)]), ("B", [("C", 1)]), ("C", [("T", 1)])], 4/5⟩

/-- A graph in which only X -> T exists, with negative weight. -/
def g9c : TrustNet.TrustGraph := ⟨[("X", [("T", -(1/2))])], 4/5⟩

/-- C9 counterexample: adding the positive edge A->C (weight 1/10, lying
along the path A -> C -> T) DROPS computed trust from 64/125 to 8/125,
because C is marked visited via the weak new edge before the strong
B -> C route reaches it; and adding the negative edge A->X RAISES trust
from 0 to 4/25, because the two negative weights multiply to a positive
score. -/
theorem trust_edge_add_nonmonotone :
    TrustNet.compute_trust g9a "A" "T" 3 = 64/125 ∧
    (0:ℚ) < 1/10 ∧
    lookupAssoc (TrustNet.adjOf (TrustNet.add_trust g9a "A" "C" (1/10)) "C") "T"
      = some 1 ∧
    TrustNet.compute_trust (TrustNet.add_trust g9a "A" "C" (1/10)) "A" "T" 3 = 8/125 ∧
    (8:ℚ)/125 < 64/125 ∧
    TrustNet.compute_trust g9c "A" "T" 3 = 0 ∧
    (-(1/2) : ℚ) < 0 ∧
    TrustNet.compute_trust (TrustNet.add_trust g9c "A" "X" (-(1/2))) "A" "T" 3 = 4/25 ∧
    (0:ℚ) < 4/25 := by
  refine ⟨?_, by norm_num, rfl, ?_, by norm_num, ?_, by norm_num, ?_, by norm_num⟩
  · simp [TrustNet.compute_trust, TrustNet.bfsRun, TrustNet.bfsVisit,
      TrustNet.adjOf, TrustNet.graphFuel, TrustNet.add_trust, g9a,
      lookupAssoc, dictInsert, dictContains, List.foldl_cons,
      List.foldl_nil] <;> norm_num
  · simp [TrustNet.compute_trust, TrustNet.bfsRun, TrustNet.bfsVisit,
      TrustNet.adjOf, TrustNet.graphFuel, TrustNet.add_trust, g9a,
      lookupAssoc, dictInsert, dictContains, List.foldl_cons,
      List.foldl_nil] <;> norm_num
  · simp [TrustNet.compute_trust, TrustNet.bfsRun, TrustNet.bfsVisit,
      TrustNet.adjOf, TrustNet.graphFuel, TrustNet.add_trust, g9c,
      lookupAssoc, dictInsert, dictContains, List.foldl_cons,
      List.foldl_nil] <;> norm_num
  · simp [TrustNet.compute_trust, TrustNet.bfsRun, TrustNet.bfsVisit,
      TrustNet.adjOf, TrustNet.graphFuel, TrustNet.add_trust, g9c,
      lookupAssoc, dictInsert, dictContains, List.foldl_cons,
      List.foldl_nil] <;> norm_num

/-- Edge refinement: same head, nonnegative weight, weight raised. -/
def TrustNet.edgeLe : (String × ℚ) → (String × ℚ) → Prop
  | (a, v), (b, w) => a = b ∧ 0 ≤ v ∧ v ≤ w

/-- Adjacency refinement: pointwise edge refinement, same shape. -/
def TrustNet.adjLe : List (String × ℚ) → List (String × ℚ) → Prop :=
  List.Forall₂ TrustNet.edgeLe

/-- Row refinement for the outer dict. -/
def TrustNet.rowLe :
    (String × List (String × ℚ)) → (String × List (String × ℚ)) → Prop
  | (k1, a1), (k2, a2) => k1 = k2 ∧ TrustNet.adjLe a1 a2

/-- Graph refinement: equal nonnegative decay and pointwise raised
nonnegative weights on an identical adjacency structure. -/
def TrustNet.GraphLe (g1 g2 : TrustNet.TrustGraph) : Prop :=
  g1.decay = g2.decay ∧ 0 ≤ g1.decay ∧
    List.Forall₂ TrustNet.rowLe g1.direct_trust g2.direct_trust

/-- Queue-entry refinement along the parallel BFS runs. -/
def TrustNet.qEntryLe :
    (String × ℚ × List String) → (String × ℚ × List String) → Prop
  | (c1, t1, p1), (c2, t2, p2) => c1 = c2 ∧ 0 ≤ t1 ∧ t1 ≤ t2 ∧ p1 = p2

/-- Forall₂ respects append. -/
theorem TrustNet.forall2_append {α β : Type} {R : α → β → Prop} :
    ∀ {l1 u1 : List α} {l2 u2 : List β}, List.Forall₂ R l1 l2 →
    List.Forall₂ R u1 u2 → List.Forall₂ R (l1 ++ u1) (l2 ++ u2) := by
  intro l1 u1 l2 u2 h hu
  induction h with
  | nil => simpa using hu
  | cons h1 h2 ih => exact List.Forall₂.cons h1 ih

/-- Related dicts look up related adjacency lists. -/
theorem TrustNet.lookup_adj_le :
    ∀ (l1 l2 : List (String × List (String × ℚ))),
    List.Forall₂ TrustNet.rowLe l1 l2 →
    ∀ k, TrustNet.adjLe ((lookupAssoc l1 k).getD []) ((lookupAssoc l2 k).getD []) := by
  intro l1 l2 h
  induction h with
  | nil => intro k; exact List.Forall₂.nil
  | @cons p q t1 t2 hpq htl ih =>
    intro k
    obtain ⟨pk, pv⟩ := p
    obtain ⟨qk, qv⟩ := q
    obtain ⟨hk, hadj⟩ := hpq
    subst hk
    by_cases hb : (pk == k) = true
    · simp only [lookupAssoc, hb, if_true, Option.getD_some]
      exact hadj
    · have hb2 : (pk == k) = false := by simpa using hb
      simp only [lookupAssoc, hb2, Bool.false_eq_true, if_false]
      exact ih k

/-- Related dicts give equal fuel sums. -/
theorem TrustNet.fuelFold_eq :
    ∀ (l1 l2 : List (String × List (String × ℚ))),
    List.Forall₂ TrustNet.rowLe l1 l2 →
    ∀ acc : Nat, l1.foldl (fun acc p => acc + 1 + p.2.length) acc
      = l2.foldl (fun acc p => acc + 1 + p.2.length) acc := by
  intro l1 l2 h
  induction h with
  | nil => intro acc; rfl
  | @cons p q t1 t2 hpq htl ih =>
    intro acc
    obtain ⟨pk, pv⟩ := p
    obtain ⟨qk, qv⟩ := q
    obtain ⟨hk, hadj⟩ := hpq
    have hlen : pv.length = qv.length := List.Forall₂.length_eq hadj
    simp only [List.foldl_cons]
    rw [hlen]
    exact ih _

/-- Related graphs give equal BFS fuel. -/
theorem TrustNet.graphFuel_eq (g1 g2 : TrustNet.TrustGraph)
    (h : TrustNet.GraphLe g1 g2) : TrustNet.graphFuel g1 = TrustNet.graphFuel g2 := by
  unfold TrustNet.graphFuel
  rw [TrustNet.fuelFold_eq _ _ h.2.2 0]

/-- Related adjacency lists look up both-none or both-some related
weights. -/
theorem TrustNet.lookup_edge_rel :
    ∀ (a1 a2 : List (String × ℚ)), TrustNet.adjLe a1 a2 → ∀ k,
    (lookupAssoc a1 k = none ∧ lookupAssoc a2 k = none) ∨
    (∃ w1 w2, lookupAssoc a1 k = some w1 ∧ lookupAssoc a2 k = some w2 ∧ w1 ≤ w2) := by
  intro a1 a2 h
  induction h with
  | nil => intro k; exact Or.inl ⟨rfl, rfl⟩
  | @cons e f t1 t2 hef htl ih =>
    intro k
    obtain ⟨ek, ev⟩ := e
    obtain ⟨fk, fv⟩ := f
    obtain ⟨hk, he0, hew⟩ := hef
    subst hk
    by_cases hb : (ek == k) = true
    · exact Or.inr ⟨ev, fv, by simp [lookupAssoc, hb], by simp [lookupAssoc, hb], hew⟩
    · have hb2 : (ek == k) = false := by simpa using hb
      rcases ih k with ⟨h1, h2⟩ | ⟨w1, w2, h1, h2, hw⟩
      · exact Or.inl ⟨by simp [lookupAssoc, hb2, h1], by simp [lookupAssoc, hb2, h2]⟩
      · exact Or.inr ⟨w1, w2, by simp [lookupAssoc, hb2, h1],
          by simp [lookupAssoc, hb2, h2], hw⟩

/-- One queue service step preserves the BFS refinement: equal visited
sets, related queues, best score no smaller on the refined graph. -/
theorem TrustNet.bfsVisit_rel :
    ∀ (adj1 adj2 : List (String × ℚ)), TrustNet.adjLe adj1 adj2 →
    ∀ (decay : ℚ), 0 ≤ decay →
    ∀ (target : String) (t1 t2 : ℚ), 0 ≤ t1 → t1 ≤ t2 →
    ∀ (path : List String)
      (acc1 acc2 : List String × List (String × ℚ × List String) × ℚ),
      acc1.1 = acc2.1 → List.Forall₂ TrustNet.qEntryLe acc1.2.1 acc2.2.1 →
      acc1.2.2 ≤ acc2.2.2 →
      (TrustNet.bfsVisit adj1 decay target t1 path acc1).1
          = (TrustNet.bfsVisit adj2 decay target t2 path acc2).1 ∧
        List.Forall₂ TrustNet.qEntryLe
          (TrustNet.bfsVisit adj1 decay target t1 path acc1).2.1
          (TrustNet.bfsVisit adj2 decay target t2 path acc2).2.1 ∧
        (TrustNet.bfsVisit adj1 decay target t1 path acc1).2.2
          ≤ (TrustNet.bfsVisit adj2 decay target t2 path acc2).2.2 := by
  intro adj1 adj2 h
  induction h with
  | nil =>
    intro decay hd target t1 t2 ht0 ht path acc1 acc2 hv hq hb
    exact ⟨hv, hq, hb⟩
  | @cons e f tl1 tl2 hef htl ih =>
    intro decay hd target t1 t2 ht0 ht path acc1 acc2 hv hq hb
    obtain ⟨ek, ev⟩ := e
    obtain ⟨fk, fv⟩ := f
    obtain ⟨hk, he0, hew⟩ := hef
    subst hk
    simp only [TrustNet.bfsVisit, List.foldl_cons]
    have hnt : t1 * ev * decay ≤ t2 * fv * decay :=
      mul_le_mul_of_nonneg_right (mul_le_mul ht hew he0 (le_trans ht0 ht)) hd
    have hnt0 : 0 ≤ t1 * ev * decay := mul_nonneg (mul_nonneg ht0 he0) hd
    by_cases h1 : (acc1.1.contains ek) = true
    · have h2 : (acc2.1.contains ek) = true := by rw [← hv]; exact h1
      rw [if_pos h1, if_pos h2]
      exact ih decay hd target t1 t2 ht0 ht path acc1 acc2 hv hq hb
    · have h2 : ¬((acc2.1.contains ek) = true) := by rw [← hv]; exact h1
      rw [if_neg h1, if_neg h2]
      by_cases hT : (ek == target) = true
      · rw [if_pos hT, if_pos hT]
        refine ih decay hd target t1 t2 ht0 ht path _ _ hv hq ?_
        show (if acc1.2.2 < t1 * ev * decay then t1 * ev * decay else acc1.2.2)
          ≤ (if acc2.2.2 < t2 * fv * decay then t2 * fv * decay else acc2.2.2)
        by_cases hc1 : acc1.2.2 < t1 * ev * decay <;>
          by_cases hc2 : acc2.2.2 < t2 * fv * decay
        · rw [if_pos hc1, if_pos hc2]; exact hnt
        · rw [if_pos hc1, if_neg hc2]; linarith
        · rw [if_neg hc1, if_pos hc2]; linarith
        · rw [if_neg hc1, if_neg hc2]; exact hb
      · rw [if_neg hT, if_neg hT]
        refine ih decay hd target t1 t2 ht0 ht path _ _ ?_ ?_ ?_
        · show acc1.1 ++ [ek] = acc2.1 ++ [ek]
          rw [hv]
        · show List.Forall₂ TrustNet.qEntryLe
            (acc1.2.1 ++ [(ek, t1 * ev * decay, path ++ [ek])])
            (acc2.2.1 ++ [(ek, t2 * fv * decay, path ++ [ek])])
          exact TrustNet.forall2_append hq
            (List.Forall₂.cons ⟨rfl, hnt0, hnt, rfl⟩ List.Forall₂.nil)
        · exact hb

/-- The parallel BFS loop returns a score no smaller on the refined
graph. -/
theorem TrustNet.bfsRun_rel (g1 g2 : TrustNet.TrustGraph)
    (h : TrustNet.GraphLe g1 g2) (target : String) (mh : Nat) :
    ∀ (fuel : Nat) (q1 q2 : List (String × ℚ × List String)),
      List.Forall₂ TrustNet.qEntryLe q1 q2 →
    ∀ (v : List String) (b1 b2 : ℚ), b1 ≤ b2 →
      TrustNet.bfsRun g1 target mh fuel q1 v b1
        ≤ TrustNet.bfsRun g2 target mh fuel q2 v b2 := by
  intro fuel
  induction fuel with
  | zero => intro q1 q2 hq v b1 b2 hb; exact hb
  | succ n ih =>
    intro q1 q2 hq v b1 b2 hb
    cases hq with
    | nil => exact hb
    | @cons a b l1 l2 hab htl =>
      obtain ⟨c1, t1, p1⟩ := a
      obtain ⟨c2, t2, p2⟩ := b
      obtain ⟨hc, ht0, htt, hp⟩ := hab
      subst hc
      subst hp
      simp only [TrustNet.bfsRun]
      rw [← h.1]
      by_cases hskip : mh + 1 < p1.length
      · rw [if_pos hskip, if_pos hskip]
        exact ih l1 l2 htl v b1 b2 hb
      · rw [if_neg hskip, if_neg hskip]
        obtain ⟨hv2, hq2, hb2⟩ := TrustNet.bfsVisit_rel
          (TrustNet.adjOf g1 c1) (TrustNet.adjOf g2 c1)
          (TrustNet.lookup_adj_le _ _ h.2.2 c1) g1.decay h.2.1 target t1 t2 ht0 htt
          p1 (v, l1, b1) (v, l2, b2) rfl htl hb
        rw [hv2]
        exact ih _ _ hq2 _ _ _ hb2

/-- C9 amended: the safe direction that does hold is structure-preserving
weight monotonicity on nonnegative graphs — raising edge weights in place
(decay equal and nonnegative, every weight nonnegative and not lowered,
adjacency shape unchanged) can only raise compute_trust.  Adding a NEW
positive edge can lower the score (enqueue-time visited marking) and
adding negative edges can raise it (negative products), as the
counterexample shows, so the claim's add-an-edge form is false in both
directions. -/
theorem compute_trust_weight_monotone (g1 g2 : TrustNet.TrustGraph)
    (h : TrustNet.GraphLe g1 g2) (viewer target : String) (mh : Nat) :
    TrustNet.compute_trust g1 viewer target mh
      ≤ TrustNet.compute_trust g2 viewer target mh := by
  unfold TrustNet.compute_trust
  by_cases hv : (viewer == target) = true
  · rw [if_pos hv, if_pos hv]
  · rw [if_neg hv, if_neg hv]
    rcases TrustNet.lookup_edge_rel _ _ (TrustNet.lookup_adj_le _ _ h.2.2 viewer)
        target with ⟨hn1, hn2⟩ | ⟨w1, w2, hs1, hs2, hw⟩
    · have hm1 : lookupAssoc (TrustNet.adjOf g1 viewer) target = none := hn1
      have hm2 : lookupAssoc (TrustNet.adjOf g2 viewer) target = none := hn2
      rw [hm1, hm2, TrustNet.graphFuel_eq g1 g2 h]
      exact TrustNet.bfsRun_rel g1 g2 h target mh _ _ _
        (List.Forall₂.cons ⟨rfl, by norm_num, le_refl 1, rfl⟩ List.Forall₂.nil)
        [viewer] 0 0 (le_refl 0)
    · have hm1 : lookupAssoc (TrustNet.adjOf g1 viewer) target = some w1 := hs1
      have hm2 : lookupAssoc (TrustNet.adjOf g2 viewer) target = some w2 := hs2
      rw [hm1, hm2]
      exact hw

/-- A graph refined by g9w2 below: the A -> T weight is raised. -/
def g9w1 : TrustNet.TrustGraph := ⟨[("A", [("T", 1/2)])], 4/5⟩

/-- g9w1 with the A -> T weight raised to 1. -/
def g9w2 : TrustNet.TrustGraph := ⟨[("A", [("T", 1)])], 4/5⟩

/-- C9 witness: the amended monotonicity at a concrete weight raise. -/
theorem compute_trust_weight_monotone_witness :
    TrustNet.compute_trust g9w1 "A" "T" 3 ≤ TrustNet.compute_trust g9w2 "A" "T" 3 :=
  compute_trust_weight_monotone g9w1 g9w2
    ⟨rfl, by norm_num [g9w1],
      List.Forall₂.cons
        ⟨rfl, List.Forall₂.cons ⟨rfl, by norm_num, by norm_num⟩ List.Forall₂.nil⟩
        List.Forall₂.nil⟩
    "A" "T" 3

/-! ## C7 — repeater trust: first-match early return vs the claimed bound

The repeater loop returns on the FIRST domain-matching designated
repeater whose two legs are positive; a later designated repeater with a
larger two-leg product gives no lower bound on the result. -/

/-- The domain test of the repeater loop (repeaters 174). -/
def Repeaters.repDomainMatch (domain : Option String) (domains : List String) : Bool :=
  match domain with
  | none => true
  | some d => domains.contains d || domains.contains "*"

/-- The repeater loop returns the two-leg product of the head repeater
when it matches the domain and both legs are positive. -/
theorem rep_loop_first_match (g : Repeaters.Graph) (decay : ℚ) (domain : Option String)
    (O T R : String) (doms : List String) (rest : List (String × List String))
    (cache : Repeaters.Cache)
    (hdm : Repeaters.repDomainMatch domain doms = true)
    (hA : 0 < (Repeaters.compute_trust_norep g decay 11 O R [] cache).1)
    (hB : 0 < (Repeaters.compute_trust_norep g decay 11 R T []
        (Repeaters.compute_trust_norep g decay 11 O R [] cache).2).1) :
    Repeaters.rep_loop g decay domain O T ((R, doms) :: rest) cache =
      (some ((Repeaters.compute_trust_norep g decay 11 O R [] cache).1 *
          (Repeaters.compute_trust_norep g decay 11 R T []
            (Repeaters.compute_trust_norep g decay 11 O R [] cache).2).1),
        dictInsert (Repeaters.compute_trust_norep g decay 11 R T []
            (Repeaters.compute_trust_norep g decay 11 O R [] cache).2).2
          (O, T, true)
          ((Repeaters.compute_trust_norep g decay 11 O R [] cache).1 *
            (Repeaters.compute_trust_norep g decay 11 R T []
              (Repeaters.compute_trust_norep g decay 11 O R [] cache).2).1)) := by
  unfold Repeaters.repDomainMatch at hdm
  cases domain with
  | none =>
    unfold Repeaters.rep_loop
    rw [if_pos rfl, if_pos hA, if_pos hB]
  | some d =>
    unfold Repeaters.rep_loop
    rw [if_pos hdm, if_pos hA, if_pos hB]

/-- C7 amended: with fresh visited and remaining depth, an entry cache
that misses (O,T,use_repeaters=True), and O's designation list headed by
a repeater R matching the domain whose two legs (computed without
repeater recursion, fresh visited sets, on the threaded caches) are both
positive, the repeater-aware trust EQUALS legA x legB — the product of
the two legs with no decay across the junction; for repeaters designated
later in the list no such bound holds (the loop returns at the first
match). -/
theorem rep_trust_first_matching_product (g : Repeaters.Graph) (decay : ℚ)
    (domain : Option String) (fuel : Nat) (O T R : String) (doms : List String)
    (rest : List (String × List String)) (cache : Repeaters.Cache)
    (hneq : (O == T) = false)
    (hmiss : lookupAssoc cache (O, T, true) = none)
    (hreps : (lookupAssoc g.repeaters O).getD [] = (R, doms) :: rest)
    (hdm : Repeaters.repDomainMatch domain doms = true)
    (hA : 0 < (Repeaters.compute_trust_norep g decay 11 O R [] cache).1)
    (hB : 0 < (Repeaters.compute_trust_norep g decay 11 R T []
        (Repeaters.compute_trust_norep g decay 11 O R [] cache).2).1) :
    (Repeaters.compute_trust_rep g decay domain fuel.succ O T [] cache).1 =
      (Repeaters.compute_trust_norep g decay 11 O R [] cache).1 *
        (Repeaters.compute_trust_norep g decay 11 R T []
          (Repeaters.compute_trust_norep g decay 11 O R [] cache).2).1 := by
  show (Repeaters.rep_step g decay domain (Repeaters.compute_trust_rep g decay domain fuel)
      O T [] cache).1 = _
  unfold Repeaters.rep_step
  simp only [hneq, Bool.false_eq_true, if_false, hmiss, hreps,
    show (([] : List String).contains O) = false from rfl]
  rw [rep_loop_first_match g decay domain O T R doms rest cache hdm hA hB]

/-- A graph in which O designates R1 then R2 for domain d; R1's two-leg
product is 1 while R2's is 6. -/
def gC7 : Repeaters.Graph :=
  ⟨[("O", [("R1", 1), ("R2", 2)]), ("R1", [("T", 1)]), ("R2", [("T", 3)])],
   [("O", [("R1", ["d"]), ("R2", ["d"])])]⟩

set_option maxRecDepth 40000 in
/-- C7 counterexample: R2 is designated by O for domain d with both legs
positive (trust(O,R2) = 2, trust(R2,T) = 3), but the repeater-aware trust
is 1 — the loop returned at the earlier designation R1 — so
trust_with_repeater(O,T,d) is NOT >= trust(O,R2) x trust(R2,T). -/
theorem repeater_bound_fails_for_second_designation :
    (Repeaters.compute_trust gC7 "O" "T" true (some "d") []).1 = 1 ∧
    (Repeaters.compute_trust gC7 "O" "R2" false none []).1 = 2 ∧
    (Repeaters.compute_trust gC7 "R2" "T" false none []).1 = 3 ∧
    lookupAssoc ((lookupAssoc gC7.repeaters "O").getD []) "R2" = some ["d"] ∧
    ¬((1:ℚ) ≥ 2 * 3) := by
  refine ⟨?_, rfl, rfl, rfl, by norm_num⟩
  have h : (Repeaters.compute_trust gC7 "O" "T" true (some "d") []).1 = (1:ℚ) * 1 := rfl
  rw [h]
  norm_num

set_option maxRecDepth 40000 in
/-- C7 witness: the amended statement at the counterexample graph, whose
first designated repeater R1 matches d with positive legs. -/
theorem rep_trust_first_matching_product_witness :
    (Repeaters.compute_trust_rep gC7 (4/5) (some "d") 11 "O" "T" [] []).1 =
      (Repeaters.compute_trust_norep gC7 (4/5) 11 "O" "R1" [] []).1 *
        (Repeaters.compute_trust_norep gC7 (4/5) 11 "R1" "T" []
          (Repeaters.compute_trust_norep gC7 (4/5) 11 "O" "R1" [] []).2).1 :=
  rep_trust_first_matching_product gC7 (4/5) (some "d") 10 "O" "T" "R1" ["d"]
    [("R2", ["d"])] [] rfl rfl rfl rfl
    (by have h : (Repeaters.compute_trust_norep gC7 (4/5) 11 "O" "R1" [] []).1 = 1 := rfl
        rw [h]; norm_num)
    (by have h : (Repeaters.compute_trust_norep gC7 (4/5) 11 "R1" "T" []
            (Repeaters.compute_trust_norep gC7 (4/5) 11 "O" "R1" [] []).2).1 = 1 := rfl
        rw [h]; norm_num)

/-! ## C10 — bloom filter: no false negatives, hex round-trip, no re-send -/

/-- Setting an in-range bit makes it read 1. -/
theorem getD_set_self (l : List Nat) : ∀ (i : Nat), i < l.length →
    (l.set i 1).getD i 0 = 1 := by
  induction l with
  | nil => intro i h; simp at h
  | cons a l ih =>
    intro i h
    cases i with
    | zero => rfl
    | succ n => exact ih n (by simp at h; omega)

/-- Setting a bit to 1 never clears another nonzero bit. -/
theorem getD_set_preserve (l : List Nat) : ∀ (i p : Nat), l.getD p 0 ≠ 0 →
    (l.set i 1).getD p 0 ≠ 0 := by
  induction l with
  | nil => intro i p h; simpa using h
  | cons a l ih =>
    intro i p h
    cases i with
    | zero =>
      cases p with
      | zero => simp
      | succ q => simpa using h
    | succ n =>
      cases p with
      | zero => simpa using h
      | succ q => exact ih n q (by simpa using h)

/-- The add-loop never clears a nonzero bit. -/
theorem bloomFold_preserve (g : Nat → Nat) : ∀ (is : List Nat) (bs : List Nat) (p : Nat),
    bs.getD p 0 ≠ 0 →
    ((is.foldl (fun acc i => acc.set (g i) 1) bs).getD p 0) ≠ 0 := by
  intro is
  induction is with
  | nil => intro bs p h; exact h
  | cons i is ih => intro bs p h; exact ih _ _ (getD_set_preserve _ _ _ h)

/-- The add-loop sets every targeted in-range bit. -/
theorem bloomFold_hits (g : Nat → Nat) : ∀ (is : List Nat) (bs : List Nat) (j : Nat),
    j ∈ is → g j < bs.length →
    ((is.foldl (fun acc i => acc.set (g i) 1) bs).getD (g j) 0) ≠ 0 := by
  intro is
  induction is with
  | nil => intro bs j hj _; exact absurd hj (List.not_mem_nil _)
  | cons i is ih =>
    intro bs j hj hlt
    rcases List.mem_cons.mp hj with rfl | hj2
    · exact bloomFold_preserve g is _ _
        (by rw [getD_set_self bs (g j) hlt]; exact one_ne_zero)
    · exact ih _ j hj2 (by simpa using hlt)

/-- Python %: each probe index is within a positive size. -/
theorem bloomIdx_lt (x : String) (i size : Nat) (h : 0 < size) :
    bloomIdx x i size < size := by
  unfold bloomIdx
  have h1 : (0:Int) < (size:Int) := by exact_mod_cast h
  have h2 : (0:Int) ≤ mmh3Signed x i % (size:Int) := Int.emod_nonneg _ (by omega)
  have h3 : mmh3Signed x i % (size:Int) < (size:Int) := Int.emod_lt_of_pos _ h1
  omega

/-- No false negatives: an item just added is always maybe_contained. -/
theorem bloom_add_contains (f : BloomFilter) (x : String)
    (hlen : f.bits.length = f.size) (hpos : 0 < f.size) :
    (f.add x).maybe_contains x = true := by
  unfold BloomFilter.add BloomFilter.maybe_contains
  rw [List.all_eq_true]
  intro i hi
  have hne := bloomFold_hits (fun k => bloomIdx x k f.size) (List.range f.hash_count)
    f.bits i hi (by rw [hlen]; exact bloomIdx_lt x i f.size hpos)
  simpa using hne

/-- Adding more items never un-contains an item. -/
theorem bloom_add_monotone (f : BloomFilter) (x y : String)
    (h : f.maybe_contains x = true) : (f.add y).maybe_contains x = true := by
  unfold BloomFilter.maybe_contains at h ⊢
  unfold BloomFilter.add
  rw [List.all_eq_true] at h ⊢
  intro i hi
  have hx : f.bits.getD (bloomIdx x i f.size) 0 ≠ 0 := by simpa using h i hi
  have hp := bloomFold_preserve (fun k => bloomIdx y k f.size) (List.range f.hash_count)
    f.bits (bloomIdx x i f.size) hx
  simpa using hp

/-- hexChar and hexVal are inverse on digit values. -/
theorem hexVal_hexChar (n : Nat) (h : n < 16) : hexVal (hexChar n) = n := by
  interval_cases n <;> rfl

/-- Packing 0/1 bits stays below 2 to the length. -/
theorem packByte_lt : ∀ (bs : List Nat), (∀ b ∈ bs, b < 2) →
    packByte bs < 2 ^ bs.length := by
  intro bs
  induction bs with
  | nil => intro _; simp [packByte]
  | cons b rest ih =>
    intro h
    have hb := h b (List.mem_cons_self _ _)
    have hr := ih (fun z hz => h z (List.mem_cons_of_mem _ hz))
    simp only [packByte, List.length_cons, pow_succ]
    omega

/-- Unpacking a packed byte of 0/1 bits returns them. -/
theorem byteToBits_packByte (a0 a1 a2 a3 a4 a5 a6 a7 : Nat)
    (h : a0 < 2 ∧ a1 < 2 ∧ a2 < 2 ∧ a3 < 2 ∧ a4 < 2 ∧ a5 < 2 ∧ a6 < 2 ∧ a7 < 2) :
    byteToBits (packByte [a0, a1, a2, a3, a4, a5, a6, a7])
      = [a0, a1, a2, a3, a4, a5, a6, a7] := by
  obtain ⟨h0, h1, h2, h3, h4, h5, h6, h7⟩ := h
  simp only [packByte, byteToBits, List.cons.injEq, and_true]
  omega

/-- bytes.hex emits the head byte's two digits first. -/
theorem bytesToHex_cons (y : Nat) (ys : List Nat) :
    (bytesToHex (y :: ys)).data = hexByte y ++ (bytesToHex ys).data := rfl

/-- bytes.fromhex undoes one byte's two hex digits. -/
theorem hexPairs_hexByte (y : Nat) (hy : y < 256) (zs : List Char) :
    hexPairs (hexByte y ++ zs) = y :: hexPairs zs := by
  have e1 : hexPairs (hexByte y ++ zs)
      = (hexVal (hexChar (y / 16 % 16)) * 16 + hexVal (hexChar (y % 16))) :: hexPairs zs := rfl
  rw [e1, hexVal_hexChar _ (by omega), hexVal_hexChar _ (by omega)]
  have e2 : y / 16 % 16 * 16 + y % 16 = y := by omega
  rw [e2]

/-- One full chunk splits off the first eight elements. -/
theorem chunksOf_eight (a0 a1 a2 a3 a4 a5 a6 a7 : α) (rest : List α) :
    chunksOf 8 (a0 :: a1 :: a2 :: a3 :: a4 :: a5 :: a6 :: a7 :: rest)
      = [a0, a1, a2, a3, a4, a5, a6, a7] :: chunksOf 8 rest := rfl

/-- to_hex followed by the from_hex bit expansion returns the bit list,
for 0/1 bits in full bytes. -/
theorem bloom_bits_roundtrip : ∀ (n : Nat) (bs : List Nat), bs.length = 8 * n →
    (∀ b ∈ bs, b < 2) →
    (hexPairs (bytesToHex ((chunksOf 8 bs).map packByte)).data).foldr
      (fun b acc => byteToBits b ++ acc) [] = bs := by
  intro n
  induction n with
  | zero =>
    intro bs h _
    have hnil : bs = [] := List.eq_nil_of_length_eq_zero (by omega)
    subst hnil
    rfl
  | succ n ih =>
    intro bs h hb
    cases bs with
    | nil => simp only [List.length_nil] at h; omega
    | cons a0 bs =>
      cases bs with
      | nil => simp only [List.length_cons, List.length_nil] at h; omega
      | cons a1 bs =>
        cases bs with
        | nil => simp only [List.length_cons, List.length_nil] at h; omega
        | cons a2 bs =>
          cases bs with
          | nil => simp only [List.length_cons, List.length_nil] at h; omega
          | cons a3 bs =>
            cases bs with
            | nil => simp only [List.length_cons, List.length_nil] at h; omega
            | cons a4 bs =>
              cases bs with
              | nil => simp only [List.length_cons, List.length_nil] at h; omega
              | cons a5 bs =>
                cases bs with
                | nil => simp only [List.length_cons, List.length_nil] at h; omega
                | cons a6 bs =>
                  cases bs with
                  | nil => simp only [List.length_cons, List.length_nil] at h; omega
                  | cons a7 rest =>
                    have hrest : rest.length = 8 * n := by
                      simp only [List.length_cons] at h
                      omega
                    have hb8 : ∀ b ∈ [a0, a1, a2, a3, a4, a5, a6, a7], b < 2 := by
                      intro b hbm
                      apply hb
                      simp only [List.mem_cons, List.not_mem_nil, or_false] at hbm
                      simp only [List.mem_cons]
                      tauto
                    have hbrest : ∀ b ∈ rest, b < 2 := by
                      intro b hbm
                      apply hb
                      simp [hbm]
                    have hy : packByte [a0, a1, a2, a3, a4, a5, a6, a7] < 256 := by
                      have hp := packByte_lt [a0, a1, a2, a3, a4, a5, a6, a7] hb8
                      norm_num at hp
                      exact hp
                    rw [chunksOf_eight, List.map_cons, bytesToHex_cons,
                      hexPairs_hexByte _ hy, List.foldr_cons,
                      byteToBits_packByte a0 a1 a2 a3 a4 a5 a6 a7
                        ⟨hb8 a0 (by simp), hb8 a1 (by simp), hb8 a2 (by simp),
                         hb8 a3 (by simp), hb8 a4 (by simp), hb8 a5 (by simp),
                         hb8 a6 (by simp), hb8 a7 (by simp)⟩,
                      ih rest hrest hbrest]
                    rfl

/-- from_hex of to_hex reconstructs the filter exactly. -/
theorem from_hex_to_hex (f : BloomFilter) (hs : f.size = 1024) (hh : f.hash_count = 3)
    (hl : f.bits.length = 1024) (hb : ∀ b ∈ f.bits, b < 2) :
    BloomFilter.from_hex f.to_hex 1024 3 = f := by
  obtain ⟨s, hc, bits⟩ := f
  simp only at hs hh hl hb
  subst hs
  subst hh
  unfold BloomFilter.from_hex BloomFilter.to_hex
  have hr := bloom_bits_roundtrip 128 bits (by omega) hb
  simp only at hr ⊢
  rw [hr]
  have ht : bits.take 1024 = bits := by
    rw [← hl]
    exact List.take_length bits
  rw [ht]

/-- Bloom-missing pass of V1: every collected cid misses the peer bloom. -/
theorem missing_inv_v1 (pb : BloomFilter) (l : List (String × SignedThought)) :
    ∀ (acc : List String), (∀ c ∈ acc, pb.maybe_contains c = false) →
    ∀ c ∈ (l.foldl
      (fun acc p => if pb.maybe_contains p.1 then acc else addUnique acc p.1) acc),
      pb.maybe_contains c = false := by
  induction l with
  | nil => intro acc hacc c hc; exact hacc c hc
  | cons hd tl ih =>
    intro acc hacc c hc
    rw [List.foldl_cons] at hc
    refine ih _ ?_ c hc
    by_cases hm : pb.maybe_contains hd.1 = true
    · simpa [hm] using hacc
    · have hm2 : pb.maybe_contains hd.1 = false := by simpa using hm
      simp only [hm2, Bool.false_eq_true, if_false]
      intro c2 hc2
      rcases mem_addUnique _ _ _ hc2 with h | rfl
      · exact hacc c2 h
      · exact hm2

/-- Identity pass of V1: every collected creator cid misses the peer
bloom. -/
theorem needed_bloom_inv_v1 (st : NodeStateV1) (pb : BloomFilter) (l : List String) :
    ∀ (acc : List String), (∀ c ∈ acc, pb.maybe_contains c = false) →
    ∀ c ∈ (l.foldl
      (fun acc cid =>
        match lookupAssoc st.thoughts cid with
        | some t =>
          if t.created_by != "GENESIS" && dictContains st.thoughts t.created_by
              && !pb.maybe_contains t.created_by then
            addUnique acc t.created_by
          else acc
        | none => acc) acc),
      pb.maybe_contains c = false := by
  induction l with
  | nil => intro acc hacc c hc; exact hacc c hc
  | cons hd tl ih =>
    intro acc hacc c hc
    rw [List.foldl_cons] at hc
    refine ih _ ?_ c hc
    cases hl : lookupAssoc st.thoughts hd with
    | none => simpa [hl] using hacc
    | some t =>
      simp only [hl]
      by_cases hg : (t.created_by != "GENESIS" && dictContains st.thoughts t.created_by
          && !pb.maybe_contains t.created_by) = true
      · simp only [hg, if_true]
        intro c2 hc2
        rcases mem_addUnique _ _ _ hc2 with h | rfl
        · exact hacc c2 h
        · rw [Bool.and_eq_true] at hg
          simpa using hg.2
      · simp only [Bool.not_eq_true] at hg
        simpa [hg] using hacc

/-- Every thought V1's sync selection emits is stored under a cid the
peer's transmitted bloom filter misses. -/
theorem v1_selection_bloom_missing (st : NodeStateV1) (bh : String) :
    ∀ t ∈ st.get_missing_for_peer bh,
      ∃ c, lookupAssoc st.thoughts c = some t ∧
        (BloomFilter.from_hex bh 1024 3).maybe_contains c = false := by
  intro t ht
  unfold NodeStateV1.get_missing_for_peer at ht
  simp only [List.mem_append] at ht
  rcases ht with h | h
  · obtain ⟨c, hc, hl⟩ := List.mem_filterMap.mp h
    have hc2 := List.mem_of_mem_filter hc
    exact ⟨c, hl, needed_bloom_inv_v1 st _ _ _ (by simp) c hc2⟩
  · obtain ⟨c, hc, hl⟩ := List.mem_filterMap.mp h
    exact ⟨c, hl, missing_inv_v1 _ _ _ (by simp) c hc⟩

/-- A thought stored under cid w1 for the C10 witness node. -/
def tC10 : SignedThought :=
  { type := "note", content := Json.mkObj [], created_by := "GENESIS",
    because := [], visibility := none, created_at := "1",
    signature := some "s", cid := some "w1" }

/-- A V1 node holding one thought under cid w1. -/
def stC10 : NodeStateV1 :=
  ⟨[("w1", tC10)], [], BloomFilter.empty 1024 3, 0, 0, 0, 0⟩

/-- C10: a bloom filter (default size 1024, hash_count 3) has no false
negatives — an added CID is maybe_contained, and stays so as more items
are added; to_hex/from_hex round-trips the bit array exactly; and V1's
sync selection only emits thoughts stored under cids the peer's
transmitted filter misses, so a thought recorded in the peer's filter is
never re-sent. -/
theorem bloom_roundtrip_no_false_negatives :
    (∀ (f : BloomFilter) (x : String), f.bits.length = f.size → 0 < f.size →
      (f.add x).maybe_contains x = true) ∧
    (∀ (f : BloomFilter) (x y : String), f.maybe_contains x = true →
      (f.add y).maybe_contains x = true) ∧
    (∀ f : BloomFilter, f.size = 1024 → f.hash_count = 3 → f.bits.length = 1024 →
      (∀ b ∈ f.bits, b < 2) → BloomFilter.from_hex f.to_hex 1024 3 = f) ∧
    (∀ (st : NodeStateV1) (pf : BloomFilter), pf.size = 1024 → pf.hash_count = 3 →
      pf.bits.length = 1024 → (∀ b ∈ pf.bits, b < 2) →
      ∀ t ∈ st.get_missing_for_peer pf.to_hex,
        ∃ c, lookupAssoc st.thoughts c = some t ∧ pf.maybe_contains c = false) := by
  refine ⟨bloom_add_contains, bloom_add_monotone, from_hex_to_hex, ?_⟩
  intro st pf h1 h2 h3 h4 t ht
  have hsel := v1_selection_bloom_missing st pf.to_hex t ht
  rw [from_hex_to_hex pf h1 h2 h3 h4] at hsel
  exact hsel

set_option maxRecDepth 40000 in
/-- C10 witness: the four conjuncts at concrete filters and a concrete
node. -/
theorem bloom_roundtrip_no_false_negatives_witness :
    ((BloomFilter.empty 1024 3).add "w1").maybe_contains "w1" = true ∧
    (((BloomFilter.empty 1024 3).add "w1").add "w2").maybe_contains "w1" = true ∧
    BloomFilter.from_hex (BloomFilter.empty 1024 3).to_hex 1024 3
      = BloomFilter.empty 1024 3 ∧
    (∀ t ∈ stC10.get_missing_for_peer (BloomFilter.empty 1024 3).to_hex,
      ∃ c, lookupAssoc stC10.thoughts c = some t ∧
        (BloomFilter.empty 1024 3).maybe_contains c = false) :=
  ⟨bloom_roundtrip_no_false_negatives.1 (BloomFilter.empty 1024 3) "w1" rfl (by decide),
   bloom_roundtrip_no_false_negatives.2.1 ((BloomFilter.empty 1024 3).add "w1") "w1" "w2"
     rfl,
   bloom_roundtrip_no_false_negatives.2.2.1 (BloomFilter.empty 1024 3) rfl rfl rfl
     (fun b hb => by rw [List.eq_of_mem_replicate hb]; decide),
   bloom_roundtrip_no_false_negatives.2.2.2 stC10 (BloomFilter.empty 1024 3) rfl rfl rfl
     (fun b hb => by rw [List.eq_of_mem_replicate hb]; decide)⟩

end Wellspring
